import Mathlib

/-!
# A verification development for the `state_machine` template (state_machine.h)

The C++ class template `state_machine<state_id_type, event_id_type>` is embedded
as follows.

* `state` objects live on the heap and are referred to by address from the
  machine's `_states` set, from `_initial` / `_current` and from event targets.
  The heap is a list of state objects; the address of an object is its index and
  `new state(...)` appends to it.  A `state_ptr` is `Option Nat`, `none` being
  `nullptr`.
* `event` objects are owned by exactly one state and are stored by value in the
  `_events` set of that state; an `event_ptr` handed to the caller is the pair of
  the owning state's address and the event id.
* `std::set<T, Cmp>` is a list kept in the iteration order of the comparer;
  `find` and `insert` use the comparer's equivalence, as the standard prescribes.
* A bound `std::function` is identified by a name (`callback`); an unbound one is
  `none`.  Every invocation of a callback is appended to the list `calls` of the
  result, with its arguments.  Callbacks are assumed not to call back into the
  machine.
* The two `std::runtime_error`s are told apart by their message; dereferencing
  a null or dangling pointer (undefined behaviour in C++) is reported as
  `error.null_dereference` and has no effect.
* The `_parent` field of a state always points to the machine whose `add_state`
  created it; the methods of `state` that need it are embedded as functions on
  the machine taking the address `this` of the state.
-/

namespace StateMachine

/-! ## Definitions -/

/-- The name of a function bound into a `std::function`. -/
abbrev callback := Nat

/-- Pointer to a state: `none` is `nullptr`, `some a` the heap address `a`. -/
abbrev state_ptr := Option Nat

/-- Class `state_machine::state::event`. -/
structure event (E : Type) where
  _id : E
  _state : state_ptr
  _action : Option callback
deriving DecidableEq, Repr

/-- Class `state_machine::state`. -/
structure state (S E : Type) where
  _id : S
  _accepted : Bool
  _events : List (event E)
  _entry_action : Option callback
  _exit_action : Option callback
deriving DecidableEq, Repr

/-- The exceptions thrown by the class, and the undefined behaviour of a null
or dangling pointer dereference. -/
inductive error where
  /-- Stands for `std::runtime_error("No event for this event")`. -/
  | no_such_event
  /-- Stands for `std::runtime_error("Attemted state transiton mangling")`. -/
  | duplicate_event
  /-- Stands for a dereference of `nullptr` or of an address that holds no state. -/
  | null_dereference
deriving DecidableEq, Repr

/-- One invocation of a bound callback, with its arguments. -/
inductive call (E : Type) where
  /-- Records `_action(event, this, event->get_state())`. -/
  | action (f : callback) (ev : event E) (source : state_ptr) (target : state_ptr)
  /-- Records `_exit_action(next_state)`. -/
  | exit_action (f : callback) (arg : state_ptr)
  /-- Records `_entry_action(_current)`. -/
  | entry_action (f : callback) (arg : state_ptr)
deriving DecidableEq, Repr

/-- Class `state_machine`: the heap of its state objects and its three fields. -/
structure state_machine (S E : Type) where
  heap : List (state S E)
  _states : List Nat
  _initial : state_ptr
  _current : state_ptr
deriving DecidableEq, Repr

/-- What a member function leaves behind: the machine afterwards, the callbacks
it invoked in order, and the value it returned or the exception it threw. -/
structure result (S E α : Type) where
  machine : state_machine S E
  calls : List (call E)
  ret : Except error α

section sets

variable {α : Type}

/-- Models `std::set::insert`: `x` is placed before the first element it is ordered
before; nothing is inserted when an equivalent element is met. -/
def set_insert (cmp : α → α → Bool) (x : α) : List α → List α
  | [] => [x]
  | y :: ys =>
    if cmp x y then x :: y :: ys
    else if cmp y x then y :: set_insert cmp x ys
    else y :: ys

/-- Models `std::set::find`: the element equivalent to `key`, `none` for `end()`. -/
def set_find (cmp : α → α → Bool) (key : α) (xs : List α) : Option α :=
  xs.find? (fun y => !cmp key y && !cmp y key)

/-- Applies `f` to the first element satisfying `p`: a write through a pointer
to that element. -/
def modify_first (p : α → Bool) (f : α → α) : List α → List α
  | [] => []
  | y :: ys => if p y then f y :: ys else y :: modify_first p f ys

end sets

section members

variable {S E : Type} [LinearOrder S] [LinearOrder E]

/-! ### Event member functions -/

/-- Source: `event::get_id`. -/
def event.get_id (self : event E) : E := self._id

/-- Source: `event::get_state`. -/
def event.get_state (self : event E) : state_ptr := self._state

/-- Source: `event::has_action`. -/
def event.has_action (self : event E) : Bool := self._action.isSome

/-- Source: `event::bind_action`. -/
def event.bind_action (self : event E) (action : Option callback) : event E :=
  { self with _action := action }

/-! ### State member functions -/

/-- Source: `state::_event_comparer`. -/
def _event_comparer (lhs rhs : event E) : Bool := decide (rhs._id < lhs._id)

/-- Source: `state::get_id`. -/
def state.get_id (self : state S E) : S := self._id

/-- Source: `state::is_accepted`. -/
def state.is_accepted (self : state S E) : Bool := self._accepted

/-- Source: `state::is_terminal`. -/
def state.is_terminal (self : state S E) : Bool := self._events.length == 0

/-- Source: `state::_find_event`; `none` is `_events.end()`. -/
def state._find_event (self : state S E) (event_id : E) : Option (event E) :=
  let bogus : event E := event.mk event_id none none
  set_find _event_comparer bogus self._events

/-- Source: `state::get_event`; `none` is `nullptr`. -/
def state.get_event (self : state S E) (event_id : E) : Option (event E) :=
  match self._find_event event_id with
  | some ev => some ev
  | none => none

/-- The statement `_events.insert(t)` of both `add_event` overloads. -/
def state.insert_event (self : state S E) (t : event E) : state S E :=
  { self with _events := set_insert _event_comparer t self._events }

/-- The assignment `_action = action` made through the event pointer that
`get_event` returns for `event_id`. -/
def state.bind_event_action (self : state S E) (event_id : E)
    (action : Option callback) : state S E :=
  let bogus : event E := event.mk event_id none none
  let events1 : List (event E) :=
    modify_first (fun y => !_event_comparer bogus y && !_event_comparer y bogus)
      (fun y => y.bind_action action) self._events
  { self with _events := events1 }

/-- Source: `state::add_event(event_id)`, on the state object at address `this`. -/
def state.add_event (self : state S E) (this : Nat) (event_id : E) :
    Except error (state S E × event E) :=
  match self._find_event event_id with
  | none =>
    let t : event E := event.mk event_id (some this) none
    .ok (self.insert_event t, t)
  | some _ => .error error.duplicate_event

/-- Source: `state::has_entry_action`. -/
def state.has_entry_action (self : state S E) : Bool := self._entry_action.isSome

/-- Source: `state::has_exit_action`. -/
def state.has_exit_action (self : state S E) : Bool := self._exit_action.isSome

/-- Source: `state::bind_entry_action` (the assignment; the machine-level function
returns `this`). -/
def state.bind_entry_action (self : state S E) (entry_action : Option callback) :
    state S E :=
  { self with _entry_action := entry_action }

/-- Source: `state::bind_exit_action`. -/
def state.bind_exit_action (self : state S E) (exit_action : Option callback) :
    state S E :=
  { self with _exit_action := exit_action }

/-- Source: `state::get_events`. -/
def state.get_events (self : state S E) : List (event E) := self._events

/-- Source: `state::_do_action`, called on the state at address `this`. -/
def state._do_action (this : Nat) (ev : event E) : List (call E) :=
  match ev._action with
  | some f => [call.action f ev (some this) ev.get_state]
  | none => []

/-! ### State machine member functions -/

/-- Source: the constructor `state_machine::state_machine`. -/
def state_machine.init : state_machine S E :=
  { heap := [], _states := [], _initial := none, _current := none }

/-- Reads the state object at an address. -/
def state_machine.deref (m : state_machine S E) (p : Nat) : Option (state S E) :=
  m.heap[p]?

/-- Writes a state object at an address. -/
def state_machine.store (m : state_machine S E) (p : Nat) (x : state S E) :
    state_machine S E :=
  { m with heap := m.heap.set p x }

/-- Source: `state_machine::_state_comparer`, on state objects. -/
def _state_comparer (lhs rhs : state S E) : Bool := decide (rhs._id < lhs._id)

/-- Source: `state_machine::_state_comparer`, on the pointers the set holds. -/
def state_machine.ptr_comparer (m : state_machine S E) (lhs rhs : Nat) : Bool :=
  match m.deref lhs, m.deref rhs with
  | some l, some r => _state_comparer l r
  | _, _ => false

/-- Source: `state_machine::_find_state`; `none` is `_states.end()`. The object
`bogus` lives on the stack, the elements of the set are dereferenced. -/
def state_machine._find_state (m : state_machine S E) (state_id : S) : Option Nat :=
  let bogus : state S E := state.mk state_id false [] none none
  m._states.find? (fun p =>
    match m.deref p with
    | some s => !_state_comparer bogus s && !_state_comparer s bogus
    | none => false)

/-- Source: `state_machine::add_state`. The default `accepted = false` of the
declaration is passed explicitly. -/
def state_machine.add_state (m : state_machine S E) (state_id : S) (accepted : Bool) :
    result S E Nat :=
  match m._find_state state_id with
  | none =>
    let s : Nat := m.heap.length
    let m1 : state_machine S E :=
      { m with heap := m.heap ++ [state.mk state_id accepted [] none none] }
    let m2 : state_machine S E :=
      if m1._states.length == 0 then { m1 with _initial := some s, _current := some s }
      else m1
    let m3 : state_machine S E :=
      { m2 with _states := set_insert m2.ptr_comparer s m2._states }
    { machine := m3, calls := [], ret := .ok s }
  | some p => { machine := m, calls := [], ret := .ok p }

/-- Source: `state_machine::get_state`. -/
def state_machine.get_state (m : state_machine S E) (state_id : S) :
    result S E state_ptr :=
  match m._find_state state_id with
  | some p => { machine := m, calls := [], ret := .ok (some p) }
  | none => { machine := m, calls := [], ret := .ok none }

/-- Source: `state_machine::get_current_state`. -/
def state_machine.get_current_state (m : state_machine S E) : state_ptr := m._current

/-- Source: `state_machine::get_initial_state`. -/
def state_machine.get_initial_state (m : state_machine S E) : state_ptr := m._initial

/-- Source: `state_machine::get_states`. -/
def state_machine.get_states (m : state_machine S E) : List Nat := m._states

/-- Source: `state_machine::next_state`, the dispatch of an event id. -/
def state_machine.next_state (m : state_machine S E) (event_id : E) :
    result S E state_ptr :=
  match m._current with
  | none => { machine := m, calls := [], ret := .error error.null_dereference }
  | some c =>
    match m.deref c with
    | none => { machine := m, calls := [], ret := .error error.null_dereference }
    | some cur =>
      match cur.get_event event_id with
      | none => { machine := m, calls := [], ret := .error error.no_such_event }
      | some ev =>
        let next_state : state_ptr := ev.get_state
        let acts : List (call E) :=
          if ev.has_action then state._do_action c ev else []
        if m._current ≠ next_state then
          let exits : List (call E) :=
            match cur._exit_action with
            | some f => [call.exit_action f next_state]
            | none => []
          match next_state.bind m.deref with
          | none => { machine := m, calls := [], ret := .error error.null_dereference }
          | some nxt =>
            let entries : List (call E) :=
              match nxt._entry_action with
              | some f => [call.entry_action f m._current]
              | none => []
            { machine := { m with _current := next_state },
              calls := acts ++ exits ++ entries,
              ret := .ok next_state }
        else
          { machine := m, calls := acts, ret := .ok m._current }

/-- Source: `state_machine::reset`. -/
def state_machine.reset (m : state_machine S E) : result S E state_ptr :=
  { machine := { m with _current := m._initial }, calls := [], ret := .ok m._initial }

/-! ### Member functions of `state`, called through a pointer `this` -/

/-- Source: `state::add_event(event_id)` called on the state at address `this`.
The returned event is the newly created one. -/
def state_machine.add_event (m : state_machine S E) (this : Nat) (event_id : E) :
    result S E (event E) :=
  match m.deref this with
  | none => { machine := m, calls := [], ret := .error error.null_dereference }
  | some self =>
    match self.add_event this event_id with
    | .ok (self1, t) =>
      { machine := m.store this self1, calls := [], ret := .ok t }
    | .error e => { machine := m, calls := [], ret := .error e }

/-- Source: `state::add_event(event_id, next_state, accepted)` called on the state
at address `this`; `_parent` is the machine `m`. The default `accepted = false`
of the declaration is passed explicitly. -/
def state_machine.add_event_next (m : state_machine S E) (this : Nat) (event_id : E)
    (next_state : S) (accepted : Bool) : result S E (event E) :=
  match m.deref this with
  | none => { machine := m, calls := [], ret := .error error.null_dereference }
  | some self =>
    let itr : Option (event E) := self._find_event event_id
    let r : result S E Nat := m.add_state next_state accepted
    match r.ret with
    | .error e => { machine := r.machine, calls := r.calls, ret := .error e }
    | .ok s =>
      match itr with
      | none =>
        let t : event E := event.mk event_id (some s) none
        match r.machine.deref this with
        | none =>
          { machine := r.machine, calls := r.calls, ret := .error error.null_dereference }
        | some self1 =>
          { machine := r.machine.store this (self1.insert_event t),
            calls := r.calls, ret := .ok t }
      | some _ =>
        { machine := r.machine, calls := r.calls, ret := .error error.duplicate_event }

/-- Source: `state::get_event` called on the state at address `this`. -/
def state_machine.get_event (m : state_machine S E) (this : Nat) (event_id : E) :
    result S E (Option (event E)) :=
  match m.deref this with
  | none => { machine := m, calls := [], ret := .error error.null_dereference }
  | some self => { machine := m, calls := [], ret := .ok (self.get_event event_id) }

/-- Source: `state::bind_entry_action` called on the state at address `this`. -/
def state_machine.bind_entry_action (m : state_machine S E) (this : Nat)
    (entry_action : Option callback) : result S E Nat :=
  match m.deref this with
  | none => { machine := m, calls := [], ret := .error error.null_dereference }
  | some self =>
    { machine := m.store this (self.bind_entry_action entry_action),
      calls := [], ret := .ok this }

/-- Source: `state::bind_exit_action` called on the state at address `this`. -/
def state_machine.bind_exit_action (m : state_machine S E) (this : Nat)
    (exit_action : Option callback) : result S E Nat :=
  match m.deref this with
  | none => { machine := m, calls := [], ret := .error error.null_dereference }
  | some self =>
    { machine := m.store this (self.bind_exit_action exit_action),
      calls := [], ret := .ok this }

/-- Source: `event::bind_action` called on the event pointer that `get_event`
returns for `event_id` on the state at address `this`. -/
def state_machine.bind_action (m : state_machine S E) (this : Nat) (event_id : E)
    (action : Option callback) : result S E Unit :=
  match m.deref this with
  | none => { machine := m, calls := [], ret := .error error.null_dereference }
  | some self =>
    match self.get_event event_id with
    | none => { machine := m, calls := [], ret := .error error.null_dereference }
    | some _ =>
      { machine := m.store this (self.bind_event_action event_id action), calls := [],
        ret := .ok Unit.unit }

/-! ### The public interface as a transition system -/

/-- One call of the public interface that can modify the machine. -/
inductive op (S E : Type) where
  | add_state (state_id : S) (accepted : Bool)
  | add_event (this : Nat) (event_id : E)
  | add_event_next (this : Nat) (event_id : E) (next_state : S) (accepted : Bool)
  | bind_entry_action (this : Nat) (entry_action : Option callback)
  | bind_exit_action (this : Nat) (exit_action : Option callback)
  | bind_action (this : Nat) (event_id : E) (action : Option callback)
  | next_state (event_id : E)
  | reset
deriving DecidableEq, Repr

/-- The calls that build the graph, as opposed to dispatch and reset. -/
def op.is_builder : op S E → Bool
  | op.next_state _ => false
  | op.reset => false
  | _ => true

/-- The machine after one call, whether it returned or threw. -/
def state_machine.apply (m : state_machine S E) : op S E → state_machine S E
  | op.add_state state_id accepted => (m.add_state state_id accepted).machine
  | op.add_event this event_id => (m.add_event this event_id).machine
  | op.add_event_next this event_id next_state accepted =>
    (m.add_event_next this event_id next_state accepted).machine
  | op.bind_entry_action this f => (m.bind_entry_action this f).machine
  | op.bind_exit_action this f => (m.bind_exit_action this f).machine
  | op.bind_action this event_id f => (m.bind_action this event_id f).machine
  | op.next_state event_id => (m.next_state event_id).machine
  | op.reset => m.reset.machine

/-- The machine after a sequence of calls. -/
def state_machine.run (m : state_machine S E) : List (op S E) → state_machine S E
  | [] => m
  | o :: os => (m.apply o).run os

/-- The machines a caller can obtain: a newly constructed machine followed by
calls of the public interface. -/
def reachable (m : state_machine S E) : Prop :=
  ∃ os : List (op S E), state_machine.init.run os = m

/-- A sequence of builder calls over numeric ids: state 1 at address 0 with an
event 7 to state 2 (created by the call, at address 1) bound to action 99 and a
self-targeting event 8 bound to action 98, an exit callback 11 on state 1, an
entry callback 20 on state 2, and an event 5 on state 2 back to state 1. -/
def example_ops : List (op Nat Nat) :=
  [op.add_state 1 false,
   op.add_event_next 0 7 2 false,
   op.bind_action 0 7 (some 99),
   op.add_event 0 8,
   op.bind_action 0 8 (some 98),
   op.bind_exit_action 0 (some 11),
   op.bind_entry_action 1 (some 20),
   op.add_event_next 1 5 1 true]

/-- The machine built by `example_ops`. -/
def example_machine : state_machine Nat Nat := state_machine.init.run example_ops

/-- The shape of a machine that the public interface maintains: the set holds
exactly the allocated states, the cursors and the event targets point into it. -/
structure well_formed (m : state_machine S E) : Prop where
  ptr_valid : ∀ p ∈ m._states, p < m.heap.length
  heap_owned : ∀ p, p < m.heap.length → p ∈ m._states
  current_mem : ∀ c, m._current = some c → c ∈ m._states
  initial_mem : ∀ c, m._initial = some c → c ∈ m._states
  current_some : m._states ≠ [] → m._current ≠ none
  initial_some : m._states ≠ [] → m._initial ≠ none
  target_mem : ∀ p s, m.deref p = some s → ∀ ev ∈ s._events,
    ∃ t, ev._state = some t ∧ t ∈ m._states
  states_nodup : m._states.Nodup
  ids_distinct : ∀ p q sp sq, m.deref p = some sp → m.deref q = some sq →
    sp._id = sq._id → p = q
  events_distinct : ∀ p s, m.deref p = some s → (s._events.map event.get_id).Nodup

/-- Source: the NEXT_STATE cell that `state_machine::dump_state_table` prints for
an event: `none` is the text `---` of the branch `event->get_state() == nullptr`,
otherwise the id read through the target pointer. -/
def state_machine.dump_next_state (m : state_machine S E) (ev : event E) :
    Except error (Option S) :=
  match ev.get_state with
  | none => .ok none
  | some t =>
    match m.deref t with
    | none => .error error.null_dereference
    | some nxt => .ok (some nxt.get_id)

/-- Two states, each with an event 5 to the other. -/
def shared_event_ops : List (op Nat Nat) :=
  [op.add_state 1 false,
   op.add_event_next 0 5 2 false,
   op.add_event_next 1 5 1 false]

/-- The machine built by `shared_event_ops`. -/
def shared_event_machine : state_machine Nat Nat := state_machine.init.run shared_event_ops

/-- State 1 (initial, not accepted) with an event 7 to state 2, bound to action 99;
state 2 has no events. -/
def go_ops : List (op Nat Nat) :=
  [op.add_state 1 false,
   op.add_event_next 0 7 2 false,
   op.bind_action 0 7 (some 99)]

/-- The machine built by `go_ops`. -/
def go_machine : state_machine Nat Nat := state_machine.init.run go_ops

/-- The calls of `example_ops` with the opposite accepted flags. -/
def flipped_ops : List (op Nat Nat) :=
  [op.add_state 1 true,
   op.add_event_next 0 7 2 true,
   op.bind_action 0 7 (some 99),
   op.add_event 0 8,
   op.bind_action 0 8 (some 98),
   op.bind_exit_action 0 (some 11),
   op.bind_entry_action 1 (some 20),
   op.add_event_next 1 5 1 false]

/-- The machine built by `flipped_ops`. -/
def flipped_machine : state_machine Nat Nat := state_machine.init.run flipped_ops

/-- The state with its accepted flag cleared. -/
def state.forget_accepted (self : state S E) : state S E :=
  { self with _accepted := false }

/-- Two machines that are identical except for the accepted flags of their states. -/
def same_but_accepted (m1 m2 : state_machine S E) : Prop :=
  m1.heap.map state.forget_accepted = m2.heap.map state.forget_accepted ∧
  m1._states = m2._states ∧ m1._initial = m2._initial ∧ m1._current = m2._current

/-- The id of the current state, when there is one. -/
def state_machine.current_id (m : state_machine S E) : Option S :=
  (m.get_current_state.bind m.deref).map state.get_id

/-- What the caller observes when the event ids are dispatched one after the other:
for each dispatch the value returned or the exception, the callbacks invoked, and
the id of the current state afterwards. -/
def state_machine.dispatch_all (m : state_machine S E) :
    List E → List (Except error state_ptr × List (call E) × Option S)
  | [] => []
  | e :: es =>
    ((m.next_state e).ret, (m.next_state e).calls, (m.next_state e).machine.current_id) ::
      (m.next_state e).machine.dispatch_all es

/-- The state object `s1` keeps the id and the accepted flag of `s`, and every event
of `s` with its id and target. -/
def state_extends (s s1 : state S E) : Prop :=
  s1.get_id = s.get_id ∧ s1.is_accepted = s.is_accepted ∧
  ∀ ev ∈ s.get_events, ∃ ev1 ∈ s1.get_events,
    ev1.get_id = ev.get_id ∧ ev1.get_state = ev.get_state

/-- Every state of `m` is a state of `m1`, at the same address, and extended. -/
def machine_extends (m m1 : state_machine S E) : Prop :=
  ∀ p ∈ m.get_states, p ∈ m1.get_states ∧
    ∀ s, m.deref p = some s → ∃ s1, m1.deref p = some s1 ∧ state_extends s s1

/-- Some live state object of the machine has the id `x`. -/
def state_machine.has_id (m : state_machine S E) (x : S) : Prop :=
  ∃ p s, m.deref p = some s ∧ s.get_id = x

/-- The state object at address `p` is live and has an event with the id `e` and
the target `tgt`. -/
def state_machine.has_event (m : state_machine S E) (p : Nat) (e : E) (tgt : state_ptr) :
    Prop :=
  ∃ s, m.deref p = some s ∧ ∃ ev ∈ s.get_events, ev.get_id = e ∧ ev.get_state = tgt

/-- The value a call returned, `none` when it threw. -/
def result.returned {α : Type} (r : result S E α) : Option α :=
  match r.ret with
  | .ok v => some v
  | .error _ => none

/-- Whether the call hands the id `x` to the machine's `add_state`: a call of
`add_state(x, _)`, or a call of `add_event(_, x, _)` on a live state. -/
def op.requests_state (m : state_machine S E) (x : S) : op S E → Bool
  | op.add_state state_id _ => decide (state_id = x)
  | op.add_event_next this _ next_id _ =>
    decide (next_id = x) && (m.deref this).isSome
  | _ => false

/-- Whether one of the calls, made in this order starting from `m`, handed the id
`x` to the machine's `add_state`. -/
def state_requested (x : S) (m : state_machine S E) (os : List (op S E)) : Bool :=
  match os with
  | [] => false
  | o :: rest => o.requests_state m x || state_requested x (m.apply o) rest

/-- The state address and the event that a successful call of either `add_event`
overload created; `none` for the other calls and for a call that threw. -/
def op.created_event (m : state_machine S E) : op S E → Option (Nat × event E)
  | op.add_event this event_id =>
    (m.add_event this event_id).returned.map (fun ev => (this, ev))
  | op.add_event_next this event_id next_id accepted =>
    (m.add_event_next this event_id next_id accepted).returned.map (fun ev => (this, ev))
  | _ => none

/-- The events that the calls, made in this order starting from `m`, created on
the state at address `this`. -/
def events_created (this : Nat) (m : state_machine S E) (os : List (op S E)) :
    List (event E) :=
  match os with
  | [] => []
  | o :: rest =>
    match o.created_event m with
    | some (p, ev) =>
      if p = this then ev :: events_created this (m.apply o) rest
      else events_created this (m.apply o) rest
    | none => events_created this (m.apply o) rest

end members

/-! ## Theorems -/

set_option linter.unusedSectionVars false

section set_lemmas

variable {α : Type}

theorem mem_set_insert_cases (cmp : α → α → Bool) (x q : α) (xs : List α)
    (h : q ∈ set_insert cmp x xs) : q = x ∨ q ∈ xs := by
  induction xs with
  | nil => simp [set_insert] at h; exact Or.inl h
  | cons y ys ih =>
    unfold set_insert at h
    split_ifs at h with h1 h2
    · rcases List.mem_cons.mp h with h3 | h3
      · exact Or.inl h3
      · exact Or.inr h3
    · rcases List.mem_cons.mp h with h3 | h3
      · exact Or.inr (h3 ▸ List.mem_cons_self _ _)
      · rcases ih h3 with h4 | h4
        · exact Or.inl h4
        · exact Or.inr (List.mem_cons_of_mem _ h4)
    · exact Or.inr h

theorem mem_set_insert_of_mem (cmp : α → α → Bool) (x q : α) (xs : List α)
    (h : q ∈ xs) : q ∈ set_insert cmp x xs := by
  induction xs with
  | nil => cases h
  | cons y ys ih =>
    unfold set_insert
    split_ifs with h1 h2
    · exact List.mem_cons_of_mem _ h
    · rcases List.mem_cons.mp h with h3 | h3
      · exact h3 ▸ List.mem_cons_self _ _
      · exact List.mem_cons_of_mem _ (ih h3)
    · exact h

theorem mem_set_insert_self (cmp : α → α → Bool) (x : α) (xs : List α)
    (h : ∀ y ∈ xs, cmp x y = true ∨ cmp y x = true) : x ∈ set_insert cmp x xs := by
  induction xs with
  | nil => simp [set_insert]
  | cons y ys ih =>
    unfold set_insert
    split_ifs with h1 h2
    · exact List.mem_cons_self _ _
    · exact List.mem_cons_of_mem _ (ih (fun z hz => h z (List.mem_cons_of_mem _ hz)))
    · rcases h y (List.mem_cons_self _ _) with h3 | h3
      · exact absurd h3 h1
      · exact absurd h3 h2

theorem set_insert_ne_nil (cmp : α → α → Bool) (x : α) (xs : List α) :
    set_insert cmp x xs ≠ [] := by
  cases xs with
  | nil => simp [set_insert]
  | cons y ys =>
    unfold set_insert
    split_ifs <;> simp

theorem mem_modify_first (p : α → Bool) (f : α → α) (q : α) (xs : List α)
    (h : q ∈ modify_first p f xs) : q ∈ xs ∨ ∃ y ∈ xs, q = f y := by
  induction xs with
  | nil => simp [modify_first] at h
  | cons y ys ih =>
    unfold modify_first at h
    split_ifs at h with h1
    · rcases List.mem_cons.mp h with h3 | h3
      · exact Or.inr ⟨y, List.mem_cons_self _ _, h3⟩
      · exact Or.inl (List.mem_cons_of_mem _ h3)
    · rcases List.mem_cons.mp h with h3 | h3
      · exact Or.inl (h3 ▸ List.mem_cons_self _ _)
      · rcases ih h3 with h4 | ⟨z, hz, hq⟩
        · exact Or.inl (List.mem_cons_of_mem _ h4)
        · exact Or.inr ⟨z, List.mem_cons_of_mem _ hz, hq⟩

theorem set_insert_perm (cmp : α → α → Bool) (x : α) (xs : List α)
    (h : ∀ y ∈ xs, cmp x y = true ∨ cmp y x = true) :
    (set_insert cmp x xs).Perm (x :: xs) := by
  induction xs with
  | nil => simp [set_insert]
  | cons y ys ih =>
    unfold set_insert
    split_ifs with h1 h2
    · exact List.Perm.refl _
    · exact ((ih (fun z hz => h z (List.mem_cons_of_mem _ hz))).cons y).trans
        (List.Perm.swap x y ys)
    · rcases h y (List.mem_cons_self _ _) with h3 | h3
      · exact absurd h3 h1
      · exact absurd h3 h2

theorem set_insert_eq_or_perm (cmp : α → α → Bool) (x : α) (xs : List α) :
    set_insert cmp x xs = xs ∨ (set_insert cmp x xs).Perm (x :: xs) := by
  induction xs with
  | nil => right; simp [set_insert]
  | cons y ys ih =>
    unfold set_insert
    split_ifs with h1 h2
    · exact Or.inr (List.Perm.refl _)
    · rcases ih with h3 | h3
      · left; rw [h3]
      · exact Or.inr ((h3.cons y).trans (List.Perm.swap x y ys))
    · exact Or.inl rfl

theorem set_insert_map_nodup {β : Type} (g : α → β) (cmp : α → α → Bool) (x : α)
    (xs : List α) (hn : (xs.map g).Nodup) (hx : g x ∉ xs.map g) :
    ((set_insert cmp x xs).map g).Nodup := by
  rcases set_insert_eq_or_perm cmp x xs with h | h
  · rw [h]; exact hn
  · rw [(h.map g).nodup_iff]
    exact List.nodup_cons.mpr ⟨hx, hn⟩

theorem modify_first_map {β : Type} (g : α → β) (p : α → Bool) (f : α → α)
    (hg : ∀ y, g (f y) = g y) (xs : List α) :
    (modify_first p f xs).map g = xs.map g := by
  induction xs with
  | nil => rfl
  | cons y ys ih =>
    unfold modify_first
    split_ifs with h1
    · simp [hg]
    · simp [ih]

/-- After an insertion that takes place, `find` with a predicate that holds of the
new element and of no old one returns the new element. -/
theorem find_set_insert (cmp : α → α → Bool) (p : α → Bool) (x : α) (xs : List α)
    (h : ∀ y ∈ xs, cmp x y = true ∨ cmp y x = true)
    (hp : ∀ y ∈ xs, p y = false) (hx : p x = true) :
    (set_insert cmp x xs).find? p = some x := by
  induction xs with
  | nil => simp [set_insert, hx]
  | cons y ys ih =>
    have hy : p y = false := hp y (List.mem_cons_self _ _)
    unfold set_insert
    split_ifs with h1 h2
    · simp [hx]
    · rw [List.find?_cons, hy]
      exact ih (fun z hz => h z (List.mem_cons_of_mem _ hz))
        (fun z hz => hp z (List.mem_cons_of_mem _ hz))
    · rcases h y (List.mem_cons_self _ _) with h3 | h3
      · exact absurd h3 h1
      · exact absurd h3 h2

theorem find_modify_first (p : α → Bool) (f : α → α) (hf : ∀ y, p (f y) = p y)
    (xs : List α) : (modify_first p f xs).find? p = (xs.find? p).map f := by
  induction xs with
  | nil => rfl
  | cons y ys ih =>
    unfold modify_first
    by_cases h1 : p y = true
    · simp [h1, hf]
    · simp [h1, ih]

end set_lemmas

section lookup_lemmas

variable {S E : Type} [LinearOrder S] [LinearOrder E]

theorem event_equiv_iff (event_id : E) (y : event E) :
    (!_event_comparer (event.mk event_id none none) y &&
      !_event_comparer y (event.mk event_id none none)) = true ↔ y._id = event_id := by
  simp only [_event_comparer, Bool.and_eq_true, Bool.not_eq_true', decide_eq_false_iff_not,
    not_lt]
  constructor
  · rintro ⟨h1, h2⟩
    exact le_antisymm h2 h1
  · intro h
    exact ⟨le_of_eq h.symm, le_of_eq h⟩

theorem state_equiv_iff (state_id : S) (y : state S E) :
    (!_state_comparer (state.mk state_id false [] none none) y &&
      !_state_comparer y (state.mk state_id false [] none none)) = true ↔
      y._id = state_id := by
  simp only [_state_comparer, Bool.and_eq_true, Bool.not_eq_true', decide_eq_false_iff_not,
    not_lt]
  constructor
  · rintro ⟨h1, h2⟩
    exact le_antisymm h2 h1
  · intro h
    exact ⟨le_of_eq h.symm, le_of_eq h⟩

theorem find_event_some (self : state S E) (event_id : E) (ev : event E)
    (h : self._find_event event_id = some ev) : ev ∈ self._events ∧ ev._id = event_id := by
  simp only [state._find_event, set_find] at h
  have h2 := List.find?_some h
  exact ⟨List.mem_of_find?_eq_some h, (event_equiv_iff event_id ev).mp h2⟩

theorem find_event_none_iff (self : state S E) (event_id : E) :
    self._find_event event_id = none ↔ ∀ ev ∈ self._events, ev._id ≠ event_id := by
  simp only [state._find_event, set_find]
  rw [List.find?_eq_none]
  constructor
  · intro h ev hev hid
    exact h ev hev ((event_equiv_iff event_id ev).mpr hid)
  · intro h ev hev hq
    exact h ev hev ((event_equiv_iff event_id ev).mp hq)

theorem get_event_eq_find (self : state S E) (event_id : E) :
    self.get_event event_id = self._find_event event_id := by
  unfold state.get_event
  cases self._find_event event_id <;> rfl

theorem find_state_some (m : state_machine S E) (state_id : S) (p : Nat)
    (h : m._find_state state_id = some p) :
    p ∈ m._states ∧ ∃ s, m.deref p = some s ∧ s._id = state_id := by
  simp only [state_machine._find_state] at h
  refine ⟨List.mem_of_find?_eq_some h, ?_⟩
  have h2 := List.find?_some h
  cases hd : m.deref p with
  | none => simp [hd] at h2
  | some s =>
    simp only [hd] at h2
    exact ⟨s, rfl, (state_equiv_iff state_id s).mp h2⟩

theorem find_state_none (m : state_machine S E) (state_id : S)
    (h : m._find_state state_id = none) :
    ∀ p ∈ m._states, ∀ s, m.deref p = some s → s._id ≠ state_id := by
  simp only [state_machine._find_state] at h
  rw [List.find?_eq_none] at h
  intro p hp s hs hid
  have h2 := h p hp
  simp only [hs] at h2
  exact h2 ((state_equiv_iff state_id s).mpr hid)

theorem deref_lt (m : state_machine S E) (p : Nat) (s : state S E)
    (h : m.deref p = some s) : p < m.heap.length := by
  unfold state_machine.deref at h
  exact (List.getElem?_eq_some.mp h).1

theorem deref_of_lt (m : state_machine S E) (p : Nat) (h : p < m.heap.length) :
    ∃ s, m.deref p = some s :=
  ⟨m.heap[p], List.getElem?_eq_getElem h⟩

end lookup_lemmas

section add_state_lemmas

variable {S E : Type} [LinearOrder S] [LinearOrder E]

theorem add_state_of_found (m : state_machine S E) (state_id : S) (accepted : Bool) (p : Nat)
    (h : m._find_state state_id = some p) :
    m.add_state state_id accepted = { machine := m, calls := [], ret := .ok p } := by
  simp [state_machine.add_state, h]

theorem add_state_of_fresh (m : state_machine S E) (state_id : S) (accepted : Bool)
    (h : m._find_state state_id = none) :
    (m.add_state state_id accepted).ret = .ok m.heap.length ∧
    (m.add_state state_id accepted).calls = [] ∧
    (m.add_state state_id accepted).machine.heap =
      m.heap ++ [state.mk state_id accepted [] none none] ∧
    (m.add_state state_id accepted).machine._states =
      set_insert (state_machine.ptr_comparer
        { m with heap := m.heap ++ [state.mk state_id accepted [] none none] })
        m.heap.length m._states ∧
    (m.add_state state_id accepted).machine._initial =
      (if m._states = [] then some m.heap.length else m._initial) ∧
    (m.add_state state_id accepted).machine._current =
      (if m._states = [] then some m.heap.length else m._current) := by
  simp only [state_machine.add_state, h, true_and]
  by_cases h0 : m._states = []
  · simp [h0, set_insert]
  · have h1 : ¬ (m._states.length = 0) := fun hl => h0 (List.length_eq_zero.mp hl)
    simp [h0, h1, state_machine.ptr_comparer, state_machine.deref]

/-- When the id is new and every pointer of the set is live, the new pointer is
ordered strictly before or after every element of the set. -/
theorem add_state_insert_cond (m : state_machine S E) (state_id : S) (accepted : Bool)
    (hv : ∀ p ∈ m._states, p < m.heap.length)
    (h : m._find_state state_id = none) :
    ∀ y ∈ m._states,
      state_machine.ptr_comparer
        { m with heap := m.heap ++ [state.mk state_id accepted [] none none] }
        m.heap.length y = true ∨
      state_machine.ptr_comparer
        { m with heap := m.heap ++ [state.mk state_id accepted [] none none] }
        y m.heap.length = true := by
  intro y hy
  have hlt := hv y hy
  obtain ⟨sy, hsy⟩ := deref_of_lt m y hlt
  have hne := find_state_none m state_id h y hy sy hsy
  have hy2 : (m.heap ++ [state.mk state_id accepted [] none none])[y]? = some sy := by
    rw [List.getElem?_append_left hlt]; exact hsy
  simp only [state_machine.ptr_comparer, state_machine.deref, hy2,
    List.getElem?_concat_length, _state_comparer, decide_eq_true_eq]
  rcases lt_trichotomy sy._id state_id with h1 | h1 | h1
  · exact Or.inl h1
  · exact absurd h1 hne
  · exact Or.inr h1

/-- When the id is new and every pointer of the set is live, the new state is
inserted into the set. -/
theorem add_state_fresh_mem (m : state_machine S E) (state_id : S) (accepted : Bool)
    (hv : ∀ p ∈ m._states, p < m.heap.length)
    (h : m._find_state state_id = none) :
    m.heap.length ∈ (m.add_state state_id accepted).machine._states := by
  rw [(add_state_of_fresh m state_id accepted h).2.2.2.1]
  exact mem_set_insert_self _ _ _ (add_state_insert_cond m state_id accepted hv h)

/-- The state objects allocated before `add_state` are not touched by it. -/
theorem add_state_deref_old (m : state_machine S E) (state_id : S) (accepted : Bool)
    (p : Nat) (hp : p < m.heap.length) :
    (m.add_state state_id accepted).machine.deref p = m.deref p := by
  cases hf : m._find_state state_id with
  | some q => rw [add_state_of_found m state_id accepted q hf]
  | none =>
    unfold state_machine.deref
    rw [(add_state_of_fresh m state_id accepted hf).2.2.1, List.getElem?_append_left hp]

theorem add_state_well_formed (m : state_machine S E) (state_id : S) (accepted : Bool)
    (hw : well_formed m) : well_formed (m.add_state state_id accepted).machine := by
  cases hf : m._find_state state_id with
  | some p => rw [add_state_of_found m state_id accepted p hf]; exact hw
  | none =>
    obtain ⟨_, _, hheap, hstates, hinit, hcur⟩ := add_state_of_fresh m state_id accepted hf
    have hself := add_state_fresh_mem m state_id accepted hw.ptr_valid hf
    have hold : ∀ q ∈ m._states, q ∈ (m.add_state state_id accepted).machine._states := by
      intro q hq
      rw [hstates]
      exact mem_set_insert_of_mem _ _ _ _ hq
    have hlen : (m.add_state state_id accepted).machine.heap.length = m.heap.length + 1 := by
      rw [hheap]; simp
    refine ⟨?_, ?_, ?_, ?_, ?_, ?_, ?_, ?_, ?_, ?_⟩
    · intro q hq
      rw [hstates] at hq
      rw [hlen]
      rcases mem_set_insert_cases _ _ _ _ hq with h1 | h1
      · omega
      · have := hw.ptr_valid q h1
        omega
    · intro q hq
      rw [hlen] at hq
      rcases Nat.lt_succ_iff_lt_or_eq.mp hq with h1 | h1
      · exact hold q (hw.heap_owned q h1)
      · rw [h1]; exact hself
    · intro c hc
      rw [hcur] at hc
      split_ifs at hc with h0
      · cases hc; exact hself
      · exact hold c (hw.current_mem c hc)
    · intro c hc
      rw [hinit] at hc
      split_ifs at hc with h0
      · cases hc; exact hself
      · exact hold c (hw.initial_mem c hc)
    · intro _
      rw [hcur]
      split_ifs with h0
      · simp
      · exact hw.current_some h0
    · intro _
      rw [hinit]
      split_ifs with h0
      · simp
      · exact hw.initial_some h0
    · intro q sq hq ev hev
      have hq2 : q < m.heap.length + 1 := hlen ▸ deref_lt _ q sq hq
      unfold state_machine.deref at hq
      rw [hheap] at hq
      rcases Nat.lt_succ_iff_lt_or_eq.mp hq2 with h1 | h1
      · rw [List.getElem?_append_left h1] at hq
        obtain ⟨t, ht, htm⟩ := hw.target_mem q sq hq ev hev
        exact ⟨t, ht, hold t htm⟩
      · rw [h1, List.getElem?_concat_length] at hq
        cases hq
        cases hev
    · rw [hstates,
        (set_insert_perm _ _ _ (add_state_insert_cond m state_id accepted hw.ptr_valid hf)).nodup_iff]
      refine List.nodup_cons.mpr ⟨?_, hw.states_nodup⟩
      intro hmem
      exact Nat.lt_irrefl _ (hw.ptr_valid _ hmem)
    · have key : ∀ q sq, (m.add_state state_id accepted).machine.deref q = some sq →
          (q < m.heap.length ∧ m.deref q = some sq) ∨
          (q = m.heap.length ∧ sq._id = state_id) := by
        intro q sq hq
        have hq2 : q < m.heap.length + 1 := hlen ▸ deref_lt _ q sq hq
        unfold state_machine.deref at hq
        rw [hheap] at hq
        rcases Nat.lt_succ_iff_lt_or_eq.mp hq2 with h1 | h1
        · rw [List.getElem?_append_left h1] at hq
          exact Or.inl ⟨h1, hq⟩
        · rw [h1, List.getElem?_concat_length] at hq
          cases hq
          exact Or.inr ⟨h1, rfl⟩
      intro p q sp sq hp hq hid
      rcases key p sp hp with ⟨hp1, hp2⟩ | ⟨hp1, hp2⟩ <;>
        rcases key q sq hq with ⟨hq1, hq2⟩ | ⟨hq1, hq2⟩
      · exact hw.ids_distinct p q sp sq hp2 hq2 hid
      · exact absurd (hid.trans hq2)
          (find_state_none m state_id hf p (hw.heap_owned p hp1) sp hp2)
      · exact absurd (hid.symm.trans hp2)
          (find_state_none m state_id hf q (hw.heap_owned q hq1) sq hq2)
      · rw [hp1, hq1]
    · intro q sq hq
      have hq2 : q < m.heap.length + 1 := hlen ▸ deref_lt _ q sq hq
      unfold state_machine.deref at hq
      rw [hheap] at hq
      rcases Nat.lt_succ_iff_lt_or_eq.mp hq2 with h1 | h1
      · rw [List.getElem?_append_left h1] at hq
        exact hw.events_distinct q sq hq
      · rw [h1, List.getElem?_concat_length] at hq
        cases hq
        exact List.nodup_nil

/-- In a well-formed machine the pointer that `add_state` returns is in the set
afterwards. -/
theorem add_state_ret_mem (m : state_machine S E) (state_id : S) (accepted : Bool)
    (hw : well_formed m) :
    ∃ p, (m.add_state state_id accepted).ret = .ok p ∧
      p ∈ (m.add_state state_id accepted).machine._states := by
  cases hf : m._find_state state_id with
  | some p =>
    rw [add_state_of_found m state_id accepted p hf]
    exact ⟨p, rfl, (find_state_some m state_id p hf).1⟩
  | none =>
    exact ⟨m.heap.length, (add_state_of_fresh m state_id accepted hf).1,
      add_state_fresh_mem m state_id accepted hw.ptr_valid hf⟩

/-- After `add_state` has created a state, `_find_state` finds it under its id. -/
theorem find_state_after_fresh (m : state_machine S E) (state_id : S) (accepted : Bool)
    (hv : ∀ p ∈ m._states, p < m.heap.length)
    (h : m._find_state state_id = none) :
    (m.add_state state_id accepted).machine._find_state state_id = some m.heap.length := by
  obtain ⟨_, _, hheap, hstates, _, _⟩ := add_state_of_fresh m state_id accepted h
  simp only [state_machine._find_state]
  rw [hstates]
  apply find_set_insert _ _ _ _ (add_state_insert_cond m state_id accepted hv h)
  · intro y hy
    have hlt := hv y hy
    obtain ⟨sy, hsy⟩ := deref_of_lt m y hlt
    have hne := find_state_none m state_id h y hy sy hsy
    rw [add_state_deref_old m state_id accepted y hlt, hsy]
    show (!_state_comparer (state.mk state_id false [] none none) sy &&
      !_state_comparer sy (state.mk state_id false [] none none)) = false
    rw [Bool.eq_false_iff]
    intro hb
    exact absurd ((state_equiv_iff state_id sy).mp hb) hne
  · have hnew : (m.add_state state_id accepted).machine.deref m.heap.length =
        some (state.mk state_id accepted [] none none) := by
      unfold state_machine.deref
      rw [hheap, List.getElem?_concat_length]
    rw [hnew]
    exact (state_equiv_iff state_id _).mpr rfl

end add_state_lemmas

section invariant_lemmas

variable {S E : Type} [LinearOrder S] [LinearOrder E]

/-- Overwriting a state object by one with the same id, whose events have distinct
ids and point into the set, keeps the machine well-formed. -/
theorem set_well_formed (m : state_machine S E) (this : Nat) (self self1 : state S E)
    (hw : well_formed m) (hd : m.deref this = some self) (hid : self1._id = self._id)
    (ht : ∀ ev ∈ self1._events, ∃ t, ev._state = some t ∧ t ∈ m._states)
    (hn : (self1._events.map event.get_id).Nodup) :
    well_formed (m.store this self1) := by
  have key : ∀ q sq, (m.store this self1).deref q = some sq →
      (q = this ∧ sq = self1) ∨ (q ≠ this ∧ m.deref q = some sq) := by
    intro q sq hq
    simp only [state_machine.deref, state_machine.store, List.getElem?_set] at hq
    split_ifs at hq with h1 h2
    · cases hq
      exact Or.inl ⟨h1.symm, rfl⟩
    · exact Or.inr ⟨fun hx => h1 hx.symm, hq⟩
  refine ⟨?_, ?_, hw.current_mem, hw.initial_mem, hw.current_some, hw.initial_some, ?_,
    hw.states_nodup, ?_, ?_⟩
  · intro q hq
    simp only [state_machine.store, List.length_set]
    exact hw.ptr_valid q hq
  · intro q hq
    simp only [state_machine.store, List.length_set] at hq
    exact hw.heap_owned q hq
  · intro q sq hq ev hev
    rcases key q sq hq with ⟨_, h2⟩ | ⟨_, h2⟩
    · rw [h2] at hev
      exact ht ev hev
    · exact hw.target_mem q sq h2 ev hev
  · have old : ∀ q sq, (m.store this self1).deref q = some sq →
        ∃ sq0, m.deref q = some sq0 ∧ sq0._id = sq._id := by
      intro q sq hq
      rcases key q sq hq with ⟨h1, h2⟩ | ⟨_, h2⟩
      · exact ⟨self, h1 ▸ hd, by rw [h2, hid]⟩
      · exact ⟨sq, h2, rfl⟩
    intro p q sp sq hp hq hpq
    obtain ⟨sp0, hp0, hp1⟩ := old p sp hp
    obtain ⟨sq0, hq0, hq1⟩ := old q sq hq
    exact hw.ids_distinct p q sp0 sq0 hp0 hq0 (by rw [hp1, hq1, hpq])
  · intro q sq hq
    rcases key q sq hq with ⟨_, h2⟩ | ⟨_, h2⟩
    · rw [h2]
      exact hn
    · exact hw.events_distinct q sq h2

/-- Moving the cursor to a state of the set keeps the machine well-formed. -/
theorem cursor_well_formed (m : state_machine S E) (c : state_ptr) (hw : well_formed m)
    (h1 : ∀ x, c = some x → x ∈ m._states) (h2 : m._states ≠ [] → c ≠ none) :
    well_formed { m with _current := c } :=
  ⟨hw.ptr_valid, hw.heap_owned, h1, hw.initial_mem, h2, hw.initial_some, hw.target_mem,
    hw.states_nodup, hw.ids_distinct, hw.events_distinct⟩

/-- Inserting an event with a new id keeps the event ids of a state distinct. -/
theorem insert_event_nodup (self : state S E) (event_id : E) (tgt : state_ptr)
    (hn : (self._events.map event.get_id).Nodup)
    (hf : self._find_event event_id = none) :
    ((self.insert_event (event.mk event_id tgt none))._events.map event.get_id).Nodup := by
  unfold state.insert_event
  apply set_insert_map_nodup _ _ _ _ hn
  intro hmem
  obtain ⟨ev, hev, hid⟩ := List.mem_map.mp hmem
  exact (find_event_none_iff self event_id).mp hf ev hev hid

theorem add_event_well_formed (m : state_machine S E) (this : Nat) (event_id : E)
    (hw : well_formed m) : well_formed (m.add_event this event_id).machine := by
  unfold state_machine.add_event
  cases hd : m.deref this with
  | none => exact hw
  | some self =>
    simp only [state.add_event]
    cases hf : self._find_event event_id with
    | some ev => exact hw
    | none =>
      refine set_well_formed m this self _ hw hd ?_ ?_ ?_
      · rfl
      · intro ev hev
        rcases mem_set_insert_cases _ _ _ _ hev with h1 | h1
        · exact ⟨this, by rw [h1], hw.heap_owned this (deref_lt m this self hd)⟩
        · exact hw.target_mem this self hd ev h1
      · exact insert_event_nodup self event_id (some this) (hw.events_distinct this self hd) hf

theorem add_event_next_well_formed (m : state_machine S E) (this : Nat) (event_id : E)
    (next_state : S) (accepted : Bool) (hw : well_formed m) :
    well_formed (m.add_event_next this event_id next_state accepted).machine := by
  have hw1 := add_state_well_formed m next_state accepted hw
  obtain ⟨s, hs, hsm⟩ := add_state_ret_mem m next_state accepted hw
  unfold state_machine.add_event_next
  cases hd : m.deref this with
  | none => exact hw
  | some self =>
    have hd1 : (m.add_state next_state accepted).machine.deref this = some self := by
      rw [add_state_deref_old m next_state accepted this (deref_lt m this self hd)]
      exact hd
    simp only [hs, hd1]
    cases hf : self._find_event event_id with
    | some ev => exact hw1
    | none =>
      refine set_well_formed _ this self _ hw1 hd1 ?_ ?_ ?_
      · rfl
      · intro ev hev
        rcases mem_set_insert_cases _ _ _ _ hev with h1 | h1
        · exact ⟨s, by rw [h1], hsm⟩
        · exact hw1.target_mem this self hd1 ev h1
      · exact insert_event_nodup self event_id (some s) (hw1.events_distinct this self hd1) hf

theorem bind_entry_action_well_formed (m : state_machine S E) (this : Nat)
    (f : Option callback) (hw : well_formed m) :
    well_formed (m.bind_entry_action this f).machine := by
  unfold state_machine.bind_entry_action
  cases hd : m.deref this with
  | none => exact hw
  | some self =>
    refine set_well_formed m this self _ hw hd ?_ ?_ ?_
    · rfl
    · exact hw.target_mem this self hd
    · exact hw.events_distinct this self hd

theorem bind_exit_action_well_formed (m : state_machine S E) (this : Nat)
    (f : Option callback) (hw : well_formed m) :
    well_formed (m.bind_exit_action this f).machine := by
  unfold state_machine.bind_exit_action
  cases hd : m.deref this with
  | none => exact hw
  | some self =>
    refine set_well_formed m this self _ hw hd ?_ ?_ ?_
    · rfl
    · exact hw.target_mem this self hd
    · exact hw.events_distinct this self hd

theorem bind_action_well_formed (m : state_machine S E) (this : Nat) (event_id : E)
    (f : Option callback) (hw : well_formed m) :
    well_formed (m.bind_action this event_id f).machine := by
  unfold state_machine.bind_action
  cases hd : m.deref this with
  | none => exact hw
  | some self =>
    cases hg : self.get_event event_id with
    | none => simp only [hg]; exact hw
    | some ev0 =>
      simp only [hg]
      refine set_well_formed m this self _ hw hd ?_ ?_ ?_
      · rfl
      · intro ev hev
        rcases mem_modify_first _ _ _ _ hev with h1 | ⟨y, hy, h1⟩
        · exact hw.target_mem this self hd ev h1
        · rw [h1]
          exact hw.target_mem this self hd y hy
      · simp only [state.bind_event_action]
        rw [modify_first_map event.get_id _ (fun y => y.bind_action f) (fun y => rfl)]
        exact hw.events_distinct this self hd

theorem next_state_of_absent (m : state_machine S E) (c : Nat) (cur : state S E) (event_id : E)
    (hc : m._current = some c) (hd : m.deref c = some cur)
    (h : cur._find_event event_id = none) :
    m.next_state event_id =
      { machine := m, calls := [], ret := .error error.no_such_event } := by
  simp [state_machine.next_state, hc, hd, get_event_eq_find, h]

theorem next_state_of_self (m : state_machine S E) (c : Nat) (cur : state S E) (event_id : E)
    (ev : event E) (hc : m._current = some c) (hd : m.deref c = some cur)
    (h : cur._find_event event_id = some ev) (ht : ev._state = some c) :
    m.next_state event_id =
      { machine := m,
        calls := (ev._action.map (fun f => call.action f ev (some c) (some c))).toList,
        ret := .ok (some c) } := by
  simp only [state_machine.next_state, hc, hd, get_event_eq_find, h, event.get_state, ht,
    ne_eq, not_true_eq_false, if_false, event.has_action, state._do_action]
  cases ha : ev._action <;> simp

theorem next_state_of_other (m : state_machine S E) (c t : Nat) (cur nxt : state S E)
    (event_id : E) (ev : event E) (hc : m._current = some c) (hd : m.deref c = some cur)
    (h : cur._find_event event_id = some ev) (ht : ev._state = some t) (hne : t ≠ c)
    (hn : m.deref t = some nxt) :
    m.next_state event_id =
      { machine := { m with _current := some t },
        calls := (ev._action.map (fun f => call.action f ev (some c) (some t))).toList ++
          (cur._exit_action.map (fun f => call.exit_action f (some t))).toList ++
          (nxt._entry_action.map (fun f => call.entry_action f (some c))).toList,
        ret := .ok (some t) } := by
  have hne2 : ¬ (some c : state_ptr) = some t := fun hx => hne (Option.some.inj hx).symm
  simp only [state_machine.next_state, hc, hd, get_event_eq_find, h, event.get_state, ht,
    ne_eq, hne2, not_false_eq_true, if_true, event.has_action, state._do_action,
    Option.bind_some, hn]
  cases ha : ev._action <;> cases hx : cur._exit_action <;> cases hy : nxt._entry_action <;>
    simp [hn, hy]

theorem next_state_well_formed (m : state_machine S E) (event_id : E) (hw : well_formed m) :
    well_formed (m.next_state event_id).machine := by
  cases hc : m._current with
  | none => simp only [state_machine.next_state, hc]; exact hw
  | some c =>
    cases hd : m.deref c with
    | none => simp only [state_machine.next_state, hc, hd]; exact hw
    | some cur =>
      cases h : cur._find_event event_id with
      | none => rw [next_state_of_absent m c cur event_id hc hd h]; exact hw
      | some ev =>
        obtain ⟨hev, _⟩ := find_event_some cur event_id ev h
        obtain ⟨t, ht, htm⟩ := hw.target_mem c cur hd ev hev
        by_cases hne : t = c
        · rw [next_state_of_self m c cur event_id ev hc hd h (hne ▸ ht)]; exact hw
        · obtain ⟨nxt, hn⟩ := deref_of_lt m t (hw.ptr_valid t htm)
          rw [next_state_of_other m c t cur nxt event_id ev hc hd h ht hne hn]
          apply cursor_well_formed m (some t) hw
          · intro x hx
            cases hx
            exact htm
          · intro _
            simp

theorem reset_well_formed (m : state_machine S E) (hw : well_formed m) :
    well_formed m.reset.machine :=
  cursor_well_formed m m._initial hw hw.initial_mem hw.initial_some

theorem init_well_formed : well_formed (state_machine.init : state_machine S E) := by
  refine ⟨?_, ?_, ?_, ?_, ?_, ?_, ?_, ?_, ?_, ?_⟩ <;>
    simp [state_machine.init, state_machine.deref]

theorem apply_well_formed (m : state_machine S E) (o : op S E) (hw : well_formed m) :
    well_formed (m.apply o) := by
  cases o with
  | add_state state_id accepted => exact add_state_well_formed m state_id accepted hw
  | add_event this event_id => exact add_event_well_formed m this event_id hw
  | add_event_next this event_id next_state accepted =>
    exact add_event_next_well_formed m this event_id next_state accepted hw
  | bind_entry_action this f => exact bind_entry_action_well_formed m this f hw
  | bind_exit_action this f => exact bind_exit_action_well_formed m this f hw
  | bind_action this event_id f => exact bind_action_well_formed m this event_id f hw
  | next_state event_id => exact next_state_well_formed m event_id hw
  | reset => exact reset_well_formed m hw

theorem run_well_formed (os : List (op S E)) (m : state_machine S E) (hw : well_formed m) :
    well_formed (m.run os) := by
  induction os generalizing m with
  | nil => exact hw
  | cons o os ih => exact ih (m.apply o) (apply_well_formed m o hw)

/-- Every machine obtained through the public interface is well-formed. -/
theorem reachable_well_formed (m : state_machine S E) (hr : reachable m) : well_formed m := by
  obtain ⟨os, rfl⟩ := hr
  exact run_well_formed os _ init_well_formed

theorem current_of_nonempty (m : state_machine S E) (hw : well_formed m)
    (hne : m._states ≠ []) :
    ∃ c cur, m._current = some c ∧ c ∈ m._states ∧ m.deref c = some cur := by
  cases hc : m._current with
  | none => exact absurd hc (hw.current_some hne)
  | some c =>
    have hm := hw.current_mem c hc
    obtain ⟨cur, hcur⟩ := deref_of_lt m c (hw.ptr_valid c hm)
    exact ⟨c, cur, rfl, hm, hcur⟩

/-- In a well-formed machine the target of an event of a live state is a live
state of the set. -/
theorem target_of_event (m : state_machine S E) (hw : well_formed m) (c : Nat)
    (cur : state S E) (event_id : E) (ev : event E) (hd : m.deref c = some cur)
    (h : cur._find_event event_id = some ev) :
    ∃ t nxt, ev._state = some t ∧ t ∈ m._states ∧ m.deref t = some nxt := by
  obtain ⟨hev, _⟩ := find_event_some cur event_id ev h
  obtain ⟨t, ht, htm⟩ := hw.target_mem c cur hd ev hev
  obtain ⟨nxt, hn⟩ := deref_of_lt m t (hw.ptr_valid t htm)
  exact ⟨t, nxt, ht, htm, hn⟩

end invariant_lemmas

/-! ### Characterisation of the builder calls -/

section builder_lemmas

variable {S E : Type} [LinearOrder S] [LinearOrder E]

theorem deref_store_self (m : state_machine S E) (this : Nat) (x : state S E)
    (h : this < m.heap.length) : (m.store this x).deref this = some x := by
  simp [state_machine.deref, state_machine.store, List.getElem?_set, h]

theorem deref_store_other (m : state_machine S E) (this q : Nat) (x : state S E)
    (h : q ≠ this) : (m.store this x).deref q = m.deref q := by
  have h2 : ¬ this = q := fun hx => h hx.symm
  simp [state_machine.deref, state_machine.store, List.getElem?_set, h2]

/-- After the insertion of an event with a new id, `_find_event` returns it. -/
theorem find_event_after_insert (self : state S E) (event_id : E) (tgt : state_ptr)
    (hf : self._find_event event_id = none) :
    (self.insert_event (event.mk event_id tgt none))._find_event event_id =
      some (event.mk event_id tgt none) := by
  have hne := (find_event_none_iff self event_id).mp hf
  simp only [state._find_event, set_find, state.insert_event]
  apply find_set_insert
  · intro y hy
    simp only [_event_comparer, decide_eq_true_eq]
    rcases lt_trichotomy y._id event_id with h1 | h1 | h1
    · exact Or.inl h1
    · exact absurd h1 (hne y hy)
    · exact Or.inr h1
  · intro y hy
    cases hb : (!_event_comparer (event.mk event_id none none) y &&
      !_event_comparer y (event.mk event_id none none)) with
    | false => rfl
    | true => exact absurd ((event_equiv_iff event_id y).mp hb) (hne y hy)
  · exact (event_equiv_iff event_id _).mpr rfl

theorem add_event_of_absent (m : state_machine S E) (this : Nat) (self : state S E)
    (event_id : E) (hd : m.deref this = some self)
    (hf : self._find_event event_id = none) :
    m.add_event this event_id =
      { machine := m.store this (self.insert_event (event.mk event_id (some this) none)),
        calls := [],
        ret := .ok (event.mk event_id (some this) none) } := by
  simp [state_machine.add_event, hd, state.add_event, hf]

theorem add_event_of_present (m : state_machine S E) (this : Nat) (self : state S E)
    (event_id : E) (ev : event E) (hd : m.deref this = some self)
    (hf : self._find_event event_id = some ev) :
    m.add_event this event_id =
      { machine := m, calls := [], ret := .error error.duplicate_event } := by
  simp [state_machine.add_event, hd, state.add_event, hf]

theorem bind_action_of_found (m : state_machine S E) (this : Nat) (self : state S E)
    (event_id : E) (ev : event E) (action : Option callback)
    (hd : m.deref this = some self) (hf : self._find_event event_id = some ev) :
    m.bind_action this event_id action =
      { machine := m.store this (self.bind_event_action event_id action),
        calls := [],
        ret := .ok Unit.unit } := by
  simp [state_machine.bind_action, hd, get_event_eq_find, hf]

/-- After `bind_action`, `_find_event` returns the same event with the new action. -/
theorem find_event_after_bind (self : state S E) (event_id : E) (ev : event E)
    (action : Option callback) (hf : self._find_event event_id = some ev) :
    (self.bind_event_action event_id action)._find_event event_id =
      some (ev.bind_action action) := by
  simp only [state._find_event, set_find, state.bind_event_action] at hf ⊢
  have hp : ∀ y : event E,
      (!_event_comparer (event.mk event_id none none) (y.bind_action action) &&
        !_event_comparer (y.bind_action action) (event.mk event_id none none)) =
      (!_event_comparer (event.mk event_id none none) y &&
        !_event_comparer y (event.mk event_id none none)) := fun _ => rfl
  rw [find_modify_first _ (fun y : event E => y.bind_action action) hp, hf]
  rfl

/-- Dispatch writes nothing but the cursor. -/
theorem next_state_frame (m : state_machine S E) (event_id : E) :
    (m.next_state event_id).machine.heap = m.heap ∧
    (m.next_state event_id).machine._states = m._states ∧
    (m.next_state event_id).machine._initial = m._initial := by
  unfold state_machine.next_state
  split
  · exact ⟨rfl, rfl, rfl⟩
  · split
    · exact ⟨rfl, rfl, rfl⟩
    · split
      · exact ⟨rfl, rfl, rfl⟩
      · simp only []
        split
        · split
          · exact ⟨rfl, rfl, rfl⟩
          · exact ⟨rfl, rfl, rfl⟩
        · exact ⟨rfl, rfl, rfl⟩

/-- On a machine that holds a state, `add_state` moves neither cursor. -/
theorem add_state_frame (m : state_machine S E) (state_id : S) (accepted : Bool)
    (hne : m._states ≠ []) :
    (m.add_state state_id accepted).machine._initial = m._initial ∧
    (m.add_state state_id accepted).machine._current = m._current ∧
    (m.add_state state_id accepted).machine._states ≠ [] := by
  cases hf : m._find_state state_id with
  | some p =>
    rw [add_state_of_found m state_id accepted p hf]
    exact ⟨rfl, rfl, hne⟩
  | none =>
    obtain ⟨_, _, _, hstates, hinit, hcur⟩ := add_state_of_fresh m state_id accepted hf
    rw [hinit, hcur, hstates, if_neg hne, if_neg hne]
    exact ⟨rfl, rfl, set_insert_ne_nil _ _ _⟩

theorem add_event_frame (m : state_machine S E) (this : Nat) (event_id : E) :
    (m.add_event this event_id).machine._states = m._states ∧
    (m.add_event this event_id).machine._initial = m._initial ∧
    (m.add_event this event_id).machine._current = m._current := by
  unfold state_machine.add_event
  split
  · exact ⟨rfl, rfl, rfl⟩
  · split
    · exact ⟨rfl, rfl, rfl⟩
    · exact ⟨rfl, rfl, rfl⟩

theorem add_event_next_frame (m : state_machine S E) (this : Nat) (event_id : E)
    (next_state : S) (accepted : Bool) (hne : m._states ≠ []) :
    (m.add_event_next this event_id next_state accepted).machine._initial = m._initial ∧
    (m.add_event_next this event_id next_state accepted).machine._current = m._current ∧
    (m.add_event_next this event_id next_state accepted).machine._states ≠ [] := by
  have h := add_state_frame m next_state accepted hne
  unfold state_machine.add_event_next
  split
  · exact ⟨rfl, rfl, hne⟩
  · simp only []
    split
    · exact h
    · split
      · split
        · exact h
        · exact h
      · exact h

theorem bind_entry_action_frame (m : state_machine S E) (this : Nat)
    (f : Option callback) :
    (m.bind_entry_action this f).machine._states = m._states ∧
    (m.bind_entry_action this f).machine._initial = m._initial ∧
    (m.bind_entry_action this f).machine._current = m._current := by
  unfold state_machine.bind_entry_action
  split <;> exact ⟨rfl, rfl, rfl⟩

theorem bind_exit_action_frame (m : state_machine S E) (this : Nat)
    (f : Option callback) :
    (m.bind_exit_action this f).machine._states = m._states ∧
    (m.bind_exit_action this f).machine._initial = m._initial ∧
    (m.bind_exit_action this f).machine._current = m._current := by
  unfold state_machine.bind_exit_action
  split <;> exact ⟨rfl, rfl, rfl⟩

theorem bind_action_frame (m : state_machine S E) (this : Nat) (event_id : E)
    (f : Option callback) :
    (m.bind_action this event_id f).machine._states = m._states ∧
    (m.bind_action this event_id f).machine._initial = m._initial ∧
    (m.bind_action this event_id f).machine._current = m._current := by
  unfold state_machine.bind_action
  split
  · exact ⟨rfl, rfl, rfl⟩
  · split <;> exact ⟨rfl, rfl, rfl⟩

/-- One call on a machine that holds a state: the initial state stays, the set
stays non-empty, and a builder call leaves the current state alone. -/
theorem apply_frame (m : state_machine S E) (o : op S E) (hne : m._states ≠ []) :
    (m.apply o)._initial = m._initial ∧ (m.apply o)._states ≠ [] ∧
    (o.is_builder = true → (m.apply o)._current = m._current) := by
  cases o with
  | add_state state_id accepted =>
    obtain ⟨h1, h2, h3⟩ := add_state_frame m state_id accepted hne
    exact ⟨h1, h3, fun _ => h2⟩
  | add_event this event_id =>
    obtain ⟨h1, h2, h3⟩ := add_event_frame m this event_id
    exact ⟨h2, by rw [state_machine.apply, h1]; exact hne, fun _ => h3⟩
  | add_event_next this event_id next_state accepted =>
    obtain ⟨h1, h2, h3⟩ := add_event_next_frame m this event_id next_state accepted hne
    exact ⟨h1, h3, fun _ => h2⟩
  | bind_entry_action this f =>
    obtain ⟨h1, h2, h3⟩ := bind_entry_action_frame m this f
    exact ⟨h2, by rw [state_machine.apply, h1]; exact hne, fun _ => h3⟩
  | bind_exit_action this f =>
    obtain ⟨h1, h2, h3⟩ := bind_exit_action_frame m this f
    exact ⟨h2, by rw [state_machine.apply, h1]; exact hne, fun _ => h3⟩
  | bind_action this event_id f =>
    obtain ⟨h1, h2, h3⟩ := bind_action_frame m this event_id f
    exact ⟨h2, by rw [state_machine.apply, h1]; exact hne, fun _ => h3⟩
  | next_state event_id =>
    obtain ⟨_, h2, h3⟩ := next_state_frame m event_id
    exact ⟨h3, by rw [state_machine.apply, h2]; exact hne, fun hb => by cases hb⟩
  | reset => exact ⟨rfl, hne, fun hb => by cases hb⟩

theorem add_state_ret_ok (m : state_machine S E) (state_id : S) (accepted : Bool) :
    ∃ s, (m.add_state state_id accepted).ret = .ok s ∧
      (m.add_state state_id accepted).calls = [] := by
  cases hf : m._find_state state_id with
  | some p =>
    rw [add_state_of_found m state_id accepted p hf]
    exact ⟨p, rfl, rfl⟩
  | none =>
    exact ⟨m.heap.length, (add_state_of_fresh m state_id accepted hf).1,
      (add_state_of_fresh m state_id accepted hf).2.1⟩

theorem add_event_next_of_present (m : state_machine S E) (this : Nat) (self : state S E)
    (event_id : E) (ev : event E) (next_state : S) (accepted : Bool)
    (hd : m.deref this = some self) (hf : self._find_event event_id = some ev) :
    m.add_event_next this event_id next_state accepted =
      { machine := (m.add_state next_state accepted).machine,
        calls := [],
        ret := .error error.duplicate_event } := by
  obtain ⟨s, hs, hcalls⟩ := add_state_ret_ok m next_state accepted
  simp only [state_machine.add_event_next, hd, hs, hf, hcalls]

theorem add_event_next_of_absent (m : state_machine S E) (this s : Nat) (self : state S E)
    (event_id : E) (next_state : S) (accepted : Bool)
    (hd : m.deref this = some self) (hf : self._find_event event_id = none)
    (hs : (m.add_state next_state accepted).ret = .ok s) :
    m.add_event_next this event_id next_state accepted =
      { machine := (m.add_state next_state accepted).machine.store this
          (self.insert_event (event.mk event_id (some s) none)),
        calls := [],
        ret := .ok (event.mk event_id (some s) none) } := by
  obtain ⟨_, _, hcalls⟩ := add_state_ret_ok m next_state accepted
  have hd1 : (m.add_state next_state accepted).machine.deref this = some self := by
    rw [add_state_deref_old m next_state accepted this (deref_lt m this self hd)]
    exact hd
  simp only [state_machine.add_event_next, hd, hs, hf, hcalls, hd1]

theorem find_state_none_of (m : state_machine S E) (state_id : S)
    (h : ∀ p ∈ m._states, ∀ s, m.deref p = some s → s._id ≠ state_id) :
    m._find_state state_id = none := by
  simp only [state_machine._find_state]
  rw [List.find?_eq_none]
  intro p hp
  cases hd : m.deref p with
  | none => simp
  | some s =>
    simp only []
    intro hb
    exact h p hp s hd ((state_equiv_iff state_id s).mp hb)

theorem run_dispatch_initial (es : List E) (m : state_machine S E) :
    (m.run (es.map op.next_state))._initial = m._initial := by
  induction es generalizing m with
  | nil => rfl
  | cons e es ih =>
    simp only [List.map_cons, state_machine.run, state_machine.apply]
    rw [ih, (next_state_frame m e).2.2]

end builder_lemmas

/-! ### Dispatch -/

section dispatch

variable {S E : Type} [LinearOrder S] [LinearOrder E]

/-- C1: in a machine built through the public interface that holds at least one
state, `next_state` throws the "no event" runtime error if and only if the current
state has no event with the requested id; it throws nothing else, and when it
throws the machine (hence the current state) is unchanged and no callback has been
invoked. An id found only on another state is therefore rejected. -/
theorem next_state_fails_iff_no_event (m : state_machine S E) (hr : reachable m)
    (hne : m._states ≠ []) (event_id : E) :
    ∃ c cur, m._current = some c ∧ m.deref c = some cur ∧
      ((m.next_state event_id).ret = .error error.no_such_event ↔
        ∀ ev ∈ cur._events, ev._id ≠ event_id) ∧
      (∀ err, (m.next_state event_id).ret = .error err →
        err = error.no_such_event ∧ (m.next_state event_id).machine = m ∧
        (m.next_state event_id).calls = []) := by
  have hw := reachable_well_formed m hr
  obtain ⟨c, cur, hc, _, hd⟩ := current_of_nonempty m hw hne
  refine ⟨c, cur, hc, hd, ?_⟩
  cases h : cur._find_event event_id with
  | none =>
    rw [next_state_of_absent m c cur event_id hc hd h]
    refine ⟨⟨fun _ => (find_event_none_iff cur event_id).mp h, fun _ => rfl⟩, ?_⟩
    intro err herr
    cases herr
    exact ⟨rfl, rfl, rfl⟩
  | some ev =>
    obtain ⟨hev, hid⟩ := find_event_some cur event_id ev h
    obtain ⟨t, nxt, ht, _, hn⟩ := target_of_event m hw c cur event_id ev hd h
    by_cases hne : t = c
    · rw [next_state_of_self m c cur event_id ev hc hd h (hne ▸ ht)]
      refine ⟨⟨fun hx => (by cases hx), fun hx => absurd hid (hx ev hev)⟩, ?_⟩
      intro err herr
      cases herr
    · rw [next_state_of_other m c t cur nxt event_id ev hc hd h ht hne hn]
      refine ⟨⟨fun hx => (by cases hx), fun hx => absurd hid (hx ev hev)⟩, ?_⟩
      intro err herr
      cases herr

/-- C2: when the current state of a machine built through the public interface has
an event with the requested id, `next_state` returns the target of that event, which
is the current state afterwards; so the current state differs from the one before
exactly when the target is not the previous current state. -/
theorem next_state_returns_target (m : state_machine S E) (hr : reachable m) (c : Nat)
    (cur : state S E) (event_id : E) (ev : event E)
    (hc : m.get_current_state = some c) (hd : m.deref c = some cur)
    (hg : cur.get_event event_id = some ev) :
    (m.next_state event_id).ret = .ok (m.next_state event_id).machine.get_current_state ∧
    (m.next_state event_id).machine.get_current_state = ev.get_state ∧
    ((m.next_state event_id).machine.get_current_state ≠ m.get_current_state ↔
      ev.get_state ≠ some c) := by
  have hw := reachable_well_formed m hr
  rw [get_event_eq_find] at hg
  obtain ⟨t, nxt, ht, _, hn⟩ := target_of_event m hw c cur event_id ev hd hg
  unfold state_machine.get_current_state at hc
  by_cases hne : t = c
  · rw [next_state_of_self m c cur event_id ev hc hd hg (hne ▸ ht)]
    simp [state_machine.get_current_state, event.get_state, hc, ht, hne]
  · rw [next_state_of_other m c t cur nxt event_id ev hc hd hg ht hne hn]
    simp [state_machine.get_current_state, event.get_state, hc, ht, hne]

/-- C3: a successful dispatch from the current state `c` through an event `ev` with
target `t` invokes exactly, in this order: the action of `ev` with `(ev, c, t)` if
bound; then, only when `t` is not `c`, the exit callback of `c` with `t` if bound and
the entry callback of `t` with `c` if bound. Nothing else is invoked, and when `t`
is `c` the sequence holds at most the action. -/
theorem next_state_calls (m : state_machine S E) (hr : reachable m) (c : Nat)
    (cur : state S E) (event_id : E) (ev : event E)
    (hc : m.get_current_state = some c) (hd : m.deref c = some cur)
    (hg : cur.get_event event_id = some ev) :
    ∃ t nxt, ev.get_state = some t ∧ m.deref t = some nxt ∧
      (m.next_state event_id).ret = .ok (some t) ∧
      (m.next_state event_id).calls =
        (ev._action.map (fun f => call.action f ev (some c) (some t))).toList ++
        (if t = c then []
         else (cur._exit_action.map (fun f => call.exit_action f (some t))).toList ++
           (nxt._entry_action.map (fun f => call.entry_action f (some c))).toList) := by
  have hw := reachable_well_formed m hr
  rw [get_event_eq_find] at hg
  obtain ⟨t, nxt, ht, _, hn⟩ := target_of_event m hw c cur event_id ev hd hg
  unfold state_machine.get_current_state at hc
  refine ⟨t, nxt, ht, hn, ?_⟩
  by_cases hne : t = c
  · rw [next_state_of_self m c cur event_id ev hc hd hg (hne ▸ ht)]
    simp [hne]
  · rw [next_state_of_other m c t cur nxt event_id ev hc hd hg ht hne hn]
    simp [hne, List.append_assoc]

/-- Witness for C1 on `example_machine`: event 5 exists only on the other state. -/
theorem next_state_fails_iff_no_event_witness :
    reachable example_machine ∧ example_machine._states ≠ [] ∧
    ∃ c cur, example_machine._current = some c ∧ example_machine.deref c = some cur ∧
      ((example_machine.next_state 5).ret = .error error.no_such_event ↔
        ∀ ev ∈ cur._events, ev._id ≠ 5) ∧
      (∀ err, (example_machine.next_state 5).ret = .error err →
        err = error.no_such_event ∧ (example_machine.next_state 5).machine = example_machine ∧
        (example_machine.next_state 5).calls = []) :=
  ⟨⟨example_ops, rfl⟩, by decide,
    next_state_fails_iff_no_event example_machine ⟨example_ops, rfl⟩ (by decide) 5⟩

/-- Witness for C2 on `example_machine`: event 7 leads from address 0 to address 1. -/
theorem next_state_returns_target_witness :
    reachable example_machine ∧ example_machine.get_current_state = some 0 ∧
    example_machine.deref 0 =
      some ⟨1, false, [⟨8, some 0, some 98⟩, ⟨7, some 1, some 99⟩], none, some 11⟩ ∧
    (example_machine.next_state 7).ret =
      .ok (example_machine.next_state 7).machine.get_current_state ∧
    (example_machine.next_state 7).machine.get_current_state =
      event.get_state (⟨7, some 1, some 99⟩ : event Nat) ∧
    ((example_machine.next_state 7).machine.get_current_state ≠
        example_machine.get_current_state ↔
      event.get_state (⟨7, some 1, some 99⟩ : event Nat) ≠ some 0) :=
  ⟨⟨example_ops, rfl⟩, rfl, rfl,
    next_state_returns_target example_machine ⟨example_ops, rfl⟩ 0
      ⟨1, false, [⟨8, some 0, some 98⟩, ⟨7, some 1, some 99⟩], none, some 11⟩ 7
      ⟨7, some 1, some 99⟩ rfl rfl rfl⟩

/-- Witness for C3 on `example_machine`: event 7 fires its action, the exit callback
of the state left and the entry callback of the state entered. -/
theorem next_state_calls_witness :
    reachable example_machine ∧ example_machine.get_current_state = some 0 ∧
    ∃ t nxt, event.get_state (⟨7, some 1, some 99⟩ : event Nat) = some t ∧
      example_machine.deref t = some nxt ∧
      (example_machine.next_state 7).ret = .ok (some t) ∧
      (example_machine.next_state 7).calls =
        ((some 99 : Option callback).map
          (fun f => call.action f (⟨7, some 1, some 99⟩ : event Nat) (some 0) (some t))).toList ++
        (if t = 0 then []
         else ((some 11 : Option callback).map
            (fun f => (call.exit_action f (some t) : call Nat))).toList ++
           (nxt._entry_action.map (fun f => call.entry_action f (some 0))).toList) :=
  ⟨⟨example_ops, rfl⟩, rfl,
    next_state_calls example_machine ⟨example_ops, rfl⟩ 0
      ⟨1, false, [⟨8, some 0, some 98⟩, ⟨7, some 1, some 99⟩], none, some 11⟩ 7
      ⟨7, some 1, some 99⟩ rfl rfl rfl⟩

end dispatch

/-! ### Building the graph -/

section builder

variable {S E : Type} [LinearOrder S] [LinearOrder E]

/-- C4: on a state `s` (at address `this`) without an event `event_id`, the
single-argument `add_event` creates an event whose target is `s` itself, not
`nullptr`. Dispatching it while `s` is current leaves the machine, hence the
current state, as it is and returns `s`; the only callback invoked is the action of
the event, once, with `(event, s, s)`, when one has been bound, whatever entry and
exit callbacks `s` has. -/
theorem add_event_self_loop (m : state_machine S E) (this : Nat) (self : state S E)
    (event_id : E) (hd : m.deref this = some self)
    (hf : ∀ ev ∈ self._events, ev._id ≠ event_id) :
    (m.add_event this event_id).ret = .ok (event.mk event_id (some this) none) ∧
    (m.add_event this event_id).machine.deref this =
      some (self.insert_event (event.mk event_id (some this) none)) ∧
    (self.insert_event (event.mk event_id (some this) none)).get_event event_id =
      some (event.mk event_id (some this) none) ∧
    (m.get_current_state = some this →
      (m.add_event this event_id).machine.next_state event_id =
        { machine := (m.add_event this event_id).machine,
          calls := [],
          ret := .ok (some this) }) ∧
    (∀ f : callback, m.get_current_state = some this →
      ((m.add_event this event_id).machine.bind_action this event_id (some f)).ret =
        .ok Unit.unit ∧
      ((m.add_event this event_id).machine.bind_action this event_id
          (some f)).machine.next_state event_id =
        { machine :=
            ((m.add_event this event_id).machine.bind_action this event_id (some f)).machine,
          calls :=
            [call.action f (event.mk event_id (some this) (some f)) (some this) (some this)],
          ret := .ok (some this) }) := by
  have hnone := (find_event_none_iff self event_id).mpr hf
  have hlt := deref_lt m this self hd
  have hfind := find_event_after_insert self event_id (some this) hnone
  have hd1 := deref_store_self m this
    (self.insert_event (event.mk event_id (some this) none)) hlt
  rw [add_event_of_absent m this self event_id hd hnone]
  refine ⟨rfl, hd1, ?_, ?_, ?_⟩
  · rw [get_event_eq_find]
    exact hfind
  · intro hc
    exact next_state_of_self (m.store this _) this _ event_id _ hc hd1 hfind rfl
  · intro f hc
    rw [bind_action_of_found _ this _ event_id _ (some f) hd1 hfind]
    refine ⟨rfl, ?_⟩
    have hlt2 : this < (m.store this
        (self.insert_event (event.mk event_id (some this) none))).heap.length := by
      simp only [state_machine.store, List.length_set]
      exact hlt
    exact next_state_of_self ((m.store this _).store this _) this _ event_id _ hc
      (deref_store_self _ this _ hlt2) (find_event_after_bind _ event_id _ (some f) hfind) rfl

/-- Witness for C4: a self-targeting event 9 added to the state at address 0 of
`example_machine`, which is current and has an exit callback; dispatched without
and with a bound action 77. -/
theorem add_event_self_loop_witness :
    example_machine.deref 0 =
      some ⟨1, false, [⟨8, some 0, some 98⟩, ⟨7, some 1, some 99⟩], none, some 11⟩ ∧
    (example_machine.add_event 0 9).machine.next_state 9 =
      { machine := (example_machine.add_event 0 9).machine,
        calls := [],
        ret := .ok (some 0) } ∧
    (((example_machine.add_event 0 9).machine.bind_action 0 9
      (some 77)).machine.next_state 9).calls =
      [call.action 77 ⟨9, some 0, some 77⟩ (some 0) (some 0)] := by
  have h := add_event_self_loop example_machine 0
    ⟨1, false, [⟨8, some 0, some 98⟩, ⟨7, some 1, some 99⟩], none, some 11⟩ 9 rfl
    (by decide)
  refine ⟨rfl, h.2.2.2.1 rfl, ?_⟩
  rw [(h.2.2.2.2 77 rfl).2]

/-- C5: `add_state` is an idempotent get-or-create. On a machine built through the
public interface, a first call with flag `a1` returns a state with the given id; a
second call with the same id and any flag `a2` returns the same state, invokes
nothing and leaves the whole machine as the first call left it, so the accepted
flag of the state is the one it had after the first call. -/
theorem add_state_idempotent (m : state_machine S E) (hr : reachable m) (state_id : S)
    (a1 a2 : Bool) :
    ∃ p s, (m.add_state state_id a1).ret = .ok p ∧
      (m.add_state state_id a1).machine.deref p = some s ∧ s.get_id = state_id ∧
      (m.add_state state_id a1).machine.add_state state_id a2 =
        { machine := (m.add_state state_id a1).machine, calls := [], ret := .ok p } ∧
      (((m.add_state state_id a1).machine.add_state state_id a2).machine.deref p).map
        state.is_accepted = some s.is_accepted := by
  have hw := reachable_well_formed m hr
  cases hf : m._find_state state_id with
  | some p =>
    obtain ⟨_, s, hs, hid⟩ := find_state_some m state_id p hf
    rw [add_state_of_found m state_id a1 p hf]
    refine ⟨p, s, rfl, hs, hid, add_state_of_found m state_id a2 p hf, ?_⟩
    rw [add_state_of_found m state_id a2 p hf]
    simp only [hs, Option.map_some']
  | none =>
    have hfind := find_state_after_fresh m state_id a1 hw.ptr_valid hf
    have hsecond := add_state_of_found _ state_id a2 _ hfind
    have hnew : (m.add_state state_id a1).machine.deref m.heap.length =
        some (state.mk state_id a1 [] none none) := by
      unfold state_machine.deref
      rw [(add_state_of_fresh m state_id a1 hf).2.2.1, List.getElem?_concat_length]
    refine ⟨m.heap.length, state.mk state_id a1 [] none none,
      (add_state_of_fresh m state_id a1 hf).1, hnew, rfl, hsecond, ?_⟩
    rw [hsecond]
    simp only [hnew, Option.map_some']

/-- Witness for C5: state id 2 exists in `example_machine`, with the accepted flag
false, and is asked for again with the flag true. -/
theorem add_state_idempotent_witness :
    reachable example_machine ∧
    ∃ p s, (example_machine.add_state 2 true).ret = .ok p ∧
      (example_machine.add_state 2 true).machine.deref p = some s ∧ s.get_id = 2 ∧
      (example_machine.add_state 2 true).machine.add_state 2 false =
        { machine := (example_machine.add_state 2 true).machine, calls := [], ret := .ok p } ∧
      (((example_machine.add_state 2 true).machine.add_state 2 false).machine.deref p).map
        state.is_accepted = some s.is_accepted :=
  ⟨⟨example_ops, rfl⟩, add_state_idempotent example_machine ⟨example_ops, rfl⟩ 2 true false⟩

/-- C6: the first `add_state` on a newly constructed machine creates a state with
the given id and accepted flag, and that state is both the initial and the current
state. -/
theorem add_state_first (state_id : S) (accepted : Bool) :
    ((state_machine.init : state_machine S E).add_state state_id accepted).ret = .ok 0 ∧
    ((state_machine.init : state_machine S E).add_state state_id accepted).machine.deref 0 =
      some (state.mk state_id accepted [] none none) ∧
    ((state_machine.init : state_machine S E).add_state state_id
      accepted).machine.get_initial_state = some 0 ∧
    ((state_machine.init : state_machine S E).add_state state_id
      accepted).machine.get_current_state = some 0 ∧
    ((state_machine.init : state_machine S E).add_state state_id
      accepted).machine.get_states = [0] := by
  simp [state_machine.add_state, state_machine._find_state, state_machine.init,
    state_machine.deref, state_machine.get_initial_state, state_machine.get_current_state,
    state_machine.get_states, set_insert]

/-- C7: once a machine holds a state, no sequence of calls of the public interface
changes its initial state, and a sequence of builder calls (all calls but dispatch
and reset) does not change its current state; in particular the state that
`add_event(id, next_id)` creates becomes neither. -/
theorem initial_fixed (m : state_machine S E) (os : List (op S E)) (hne : m._states ≠ []) :
    (m.run os).get_initial_state = m.get_initial_state ∧
    ((∀ o ∈ os, o.is_builder = true) →
      (m.run os).get_current_state = m.get_current_state) := by
  induction os generalizing m with
  | nil => exact ⟨rfl, fun _ => rfl⟩
  | cons o os ih =>
    obtain ⟨h1, h2, h3⟩ := apply_frame m o hne
    obtain ⟨h4, h5⟩ := ih (m.apply o) h2
    simp only [state_machine.get_initial_state, state_machine.get_current_state,
      state_machine.run] at h4 h5 ⊢
    refine ⟨h4.trans h1, fun hb => ?_⟩
    rw [h5 (fun x hx => hb x (List.mem_cons_of_mem _ hx)),
      h3 (hb o (List.mem_cons_self _ _))]

/-- Witness for C7: on `example_machine`, a call that creates state 3 as the target
of a new event, a dispatch and further builder calls keep the initial state at
address 0; without the dispatch the current state stays at address 0 too. -/
theorem initial_fixed_witness :
    example_machine._states ≠ [] ∧
    (example_machine.run
      [op.add_event_next 1 6 3 true, op.next_state 7, op.add_state 4 false,
        op.bind_entry_action 0 (some 10)]).get_initial_state = some 0 ∧
    (example_machine.run
      [op.add_event_next 1 6 3 true, op.add_state 4 false,
        op.bind_entry_action 0 (some 10)]).get_current_state = some 0 :=
  ⟨by decide,
    (initial_fixed example_machine
      [op.add_event_next 1 6 3 true, op.next_state 7, op.add_state 4 false,
        op.bind_entry_action 0 (some 10)] (by decide)).1,
    (initial_fixed example_machine
      [op.add_event_next 1 6 3 true, op.add_state 4 false,
        op.bind_entry_action 0 (some 10)] (by decide)).2 (by decide)⟩

/-- C8: after any sequence of dispatches, successful or not, `reset` returns the
initial state, makes it the current state, and invokes no callback; a second
`reset` gives the same result. -/
theorem reset_restores_initial (m : state_machine S E) (es : List E) :
    (m.run (es.map op.next_state)).reset.ret = .ok m.get_initial_state ∧
    (m.run (es.map op.next_state)).reset.machine.get_current_state =
      m.get_initial_state ∧
    (m.run (es.map op.next_state)).reset.calls = [] ∧
    (m.run (es.map op.next_state)).reset.machine.reset =
      (m.run (es.map op.next_state)).reset := by
  have h := run_dispatch_initial es m
  refine ⟨?_, ?_, rfl, rfl⟩
  · simp only [state_machine.reset, state_machine.get_initial_state, h]
  · simp only [state_machine.reset, state_machine.get_initial_state,
      state_machine.get_current_state, h]

/-- C9: on a state that already has an event `event_id`, both overloads of
`add_event` throw the "mangling" runtime error and the state object, with its
events, their targets and their actions, is as before; on a state that has no such
event both overloads return the new event. -/
theorem add_event_duplicate (m : state_machine S E) (this : Nat) (self : state S E)
    (event_id : E) (next_state : S) (accepted : Bool) (hd : m.deref this = some self) :
    ((∃ ev ∈ self._events, ev._id = event_id) →
      m.add_event this event_id =
        { machine := m, calls := [], ret := .error error.duplicate_event } ∧
      (m.add_event_next this event_id next_state accepted).ret =
        .error error.duplicate_event ∧
      (m.add_event_next this event_id next_state accepted).calls = [] ∧
      (m.add_event_next this event_id next_state accepted).machine.deref this =
        some self) ∧
    ((∀ ev ∈ self._events, ev._id ≠ event_id) →
      (m.add_event this event_id).ret = .ok (event.mk event_id (some this) none) ∧
      ∃ s, (m.add_event_next this event_id next_state accepted).ret =
        .ok (event.mk event_id (some s) none)) := by
  constructor
  · rintro ⟨ev, hev, hid⟩
    cases hf : self._find_event event_id with
    | none => exact absurd hid ((find_event_none_iff self event_id).mp hf ev hev)
    | some ev0 =>
      rw [add_event_of_present m this self event_id ev0 hd hf,
        add_event_next_of_present m this self event_id ev0 next_state accepted hd hf]
      refine ⟨rfl, rfl, rfl, ?_⟩
      rw [add_state_deref_old m next_state accepted this (deref_lt m this self hd)]
      exact hd
  · intro hne
    have hf := (find_event_none_iff self event_id).mpr hne
    obtain ⟨s, hs, _⟩ := add_state_ret_ok m next_state accepted
    rw [add_event_of_absent m this self event_id hd hf,
      add_event_next_of_absent m this s self event_id next_state accepted hd hf hs]
    exact ⟨rfl, s, rfl⟩

/-- Witness for C9: event 7 of the state at address 0 of `example_machine` was
created by the overload with a target and is bound to action 99; event 9 is not
on that state. -/
theorem add_event_duplicate_witness :
    example_machine.deref 0 =
      some ⟨1, false, [⟨8, some 0, some 98⟩, ⟨7, some 1, some 99⟩], none, some 11⟩ ∧
    (example_machine.add_event 0 7 =
      { machine := example_machine, calls := [], ret := .error error.duplicate_event } ∧
    (example_machine.add_event_next 0 7 3 true).ret = .error error.duplicate_event ∧
    (example_machine.add_event_next 0 7 3 true).calls = [] ∧
    (example_machine.add_event_next 0 7 3 true).machine.deref 0 =
      some ⟨1, false, [⟨8, some 0, some 98⟩, ⟨7, some 1, some 99⟩], none, some 11⟩) ∧
    (example_machine.add_event 0 9).ret = .ok ⟨9, some 0, none⟩ :=
  ⟨rfl, (add_event_duplicate example_machine 0
      ⟨1, false, [⟨8, some 0, some 98⟩, ⟨7, some 1, some 99⟩], none, some 11⟩ 7 3 true rfl).1
      ⟨⟨7, some 1, some 99⟩, by decide, rfl⟩,
    ((add_event_duplicate example_machine 0
      ⟨1, false, [⟨8, some 0, some 98⟩, ⟨7, some 1, some 99⟩], none, some 11⟩ 9 3 true rfl).2
      (by decide)).1⟩

/-- C10: on a machine built through the public interface, for a state `s` (at
address `this`) without an event `event_id`: when no state has the id `next_state`,
`add_event(event_id, next_state, accepted)` adds exactly one state to the machine,
with that id, the given accepted flag, no events and no callbacks, leaves the other
states as they are and gives `s` an event targeting the new state, so that a
dispatch of `event_id` with `s` current makes the new state current; when a state
with the id exists, no state is created, the existing state keeps its accepted flag
and the new event targets it. -/
theorem add_event_next_target (m : state_machine S E) (hr : reachable m) (this : Nat)
    (self : state S E) (event_id : E) (next_state : S) (accepted : Bool)
    (hd : m.deref this = some self) (he : ∀ ev ∈ self._events, ev._id ≠ event_id) :
    ((∀ p ∈ m._states, ∀ s, m.deref p = some s → s._id ≠ next_state) →
      (m.add_event_next this event_id next_state accepted).ret =
        .ok (event.mk event_id (some m.heap.length) none) ∧
      (m.add_event_next this event_id next_state accepted).machine._states.Perm
        (m.heap.length :: m._states) ∧
      (m.add_event_next this event_id next_state accepted).machine.deref m.heap.length =
        some (state.mk next_state accepted [] none none) ∧
      (state.mk next_state accepted ([] : List (event E)) none none).is_terminal = true ∧
      (m.add_event_next this event_id next_state accepted).machine.deref this =
        some (self.insert_event (event.mk event_id (some m.heap.length) none)) ∧
      (∀ q, q ≠ this → q < m.heap.length →
        (m.add_event_next this event_id next_state accepted).machine.deref q = m.deref q) ∧
      (m.get_current_state = some this →
        ((m.add_event_next this event_id next_state accepted).machine.next_state
          event_id).ret = .ok (some m.heap.length) ∧
        ((m.add_event_next this event_id next_state accepted).machine.next_state
          event_id).machine.get_current_state = some m.heap.length)) ∧
    (∀ p ∈ m._states, ∀ s, m.deref p = some s → s._id = next_state →
      (m.add_event_next this event_id next_state accepted).ret =
        .ok (event.mk event_id (some p) none) ∧
      (m.add_event_next this event_id next_state accepted).machine._states = m._states ∧
      (m.add_event_next this event_id next_state accepted).machine.heap.length =
        m.heap.length ∧
      (m.add_event_next this event_id next_state accepted).machine.deref this =
        some (self.insert_event (event.mk event_id (some p) none)) ∧
      (∀ q, q ≠ this →
        (m.add_event_next this event_id next_state accepted).machine.deref q = m.deref q) ∧
      ((m.add_event_next this event_id next_state accepted).machine.deref p).map
        state.is_accepted = some s.is_accepted) := by
  have hw := reachable_well_formed m hr
  have hf := (find_event_none_iff self event_id).mpr he
  have hlt := deref_lt m this self hd
  constructor
  · intro hnew
    have hfs := find_state_none_of m next_state hnew
    obtain ⟨hret, _, hheap, hstates, _, hcur⟩ := add_state_of_fresh m next_state accepted hfs
    have hlen : (m.add_state next_state accepted).machine.heap.length = m.heap.length + 1 := by
      rw [hheap]; simp
    have hlt1 : this < (m.add_state next_state accepted).machine.heap.length := by omega
    have hne : m.heap.length ≠ this := by omega
    have hdnew : (m.add_state next_state accepted).machine.deref m.heap.length =
        some (state.mk next_state accepted [] none none) := by
      unfold state_machine.deref
      rw [hheap, List.getElem?_concat_length]
    rw [add_event_next_of_absent m this m.heap.length self event_id next_state accepted hd hf
      hret]
    have hdthis := deref_store_self (m.add_state next_state accepted).machine this
      (self.insert_event (event.mk event_id (some m.heap.length) none)) hlt1
    have hdlen : ((m.add_state next_state accepted).machine.store this
        (self.insert_event (event.mk event_id (some m.heap.length) none))).deref
          m.heap.length = some (state.mk next_state accepted [] none none) := by
      rw [deref_store_other _ this m.heap.length _ hne]
      exact hdnew
    refine ⟨rfl, ?_, hdlen, rfl, hdthis, ?_, ?_⟩
    · show (m.add_state next_state accepted).machine._states.Perm _
      rw [hstates]
      exact set_insert_perm _ _ _ (add_state_insert_cond m next_state accepted hw.ptr_valid hfs)
    · intro q hq hql
      rw [deref_store_other _ this q _ hq]
      exact add_state_deref_old m next_state accepted q hql
    · intro hc
      have hne0 : m._states ≠ [] := fun h0 => by
        have := hw.heap_owned this hlt
        rw [h0] at this
        cases this
      have hc1 : ((m.add_state next_state accepted).machine.store this
          (self.insert_event (event.mk event_id (some m.heap.length) none)))._current =
            some this := by
        show (m.add_state next_state accepted).machine._current = some this
        rw [hcur, if_neg hne0]
        exact hc
      rw [next_state_of_other _ this m.heap.length _ _ event_id _ hc1 hdthis
        (find_event_after_insert self event_id (some m.heap.length) hf) rfl hne hdlen]
      exact ⟨rfl, rfl⟩
  · intro p hp s hs hid
    cases hfs : m._find_state next_state with
    | none => exact absurd hid (find_state_none m next_state hfs p hp s hs)
    | some p1 =>
      obtain ⟨_, s1, hs1, hid1⟩ := find_state_some m next_state p1 hfs
      have hpp : p1 = p := hw.ids_distinct p1 p s1 s hs1 hs (hid1.trans hid.symm)
      rw [hpp] at hfs
      have hadd := add_state_of_found m next_state accepted p hfs
      have hret : (m.add_state next_state accepted).ret = .ok p := by rw [hadd]
      rw [add_event_next_of_absent m this p self event_id next_state accepted hd hf hret,
        hadd]
      have hdthis := deref_store_self m this
        (self.insert_event (event.mk event_id (some p) none)) hlt
      refine ⟨rfl, rfl, ?_, hdthis, ?_, ?_⟩
      · simp only [state_machine.store, List.length_set]
      · intro q hq
        exact deref_store_other m this q _ hq
      · show ((m.store this
            (self.insert_event (event.mk event_id (some p) none))).deref p).map
              state.is_accepted = some s.is_accepted
        by_cases hpt : p = this
        · subst hpt
          rw [hdthis]
          rw [hd] at hs
          cases hs
          rfl
        · rw [deref_store_other m this p _ hpt, hs]
          rfl

/-- Witness for C10 on `example_machine`: from the current state at address 0 a new
event 6 to the new id 3 creates the state at address 2 and dispatching it makes that
state current; a new event 6 to the existing id 2 targets the state at address 1. -/
theorem add_event_next_target_witness :
    reachable example_machine ∧
    example_machine.deref 0 =
      some ⟨1, false, [⟨8, some 0, some 98⟩, ⟨7, some 1, some 99⟩], none, some 11⟩ ∧
    (example_machine.add_event_next 0 6 3 true).machine.deref 2 =
      some ⟨3, true, [], none, none⟩ ∧
    ((example_machine.add_event_next 0 6 3 true).machine.next_state
      6).machine.get_current_state = some 2 ∧
    (example_machine.add_event_next 0 6 2 true).ret = .ok ⟨6, some 1, none⟩ := by
  have hr : reachable example_machine := ⟨example_ops, rfl⟩
  have h := add_event_next_target example_machine hr 0
    ⟨1, false, [⟨8, some 0, some 98⟩, ⟨7, some 1, some 99⟩], none, some 11⟩ 6 3 true rfl
    (by decide)
  have h2 := add_event_next_target example_machine hr 0
    ⟨1, false, [⟨8, some 0, some 98⟩, ⟨7, some 1, some 99⟩], none, some 11⟩ 6 2 true rfl
    (by decide)
  have hnew : ∀ p ∈ example_machine._states, ∀ s, example_machine.deref p = some s →
      s._id ≠ 3 := by
    intro p hp s hs
    have hp2 : p = 1 ∨ p = 0 := by
      have hl : example_machine._states = [1, 0] := rfl
      rw [hl] at hp
      simpa using hp
    rcases hp2 with hp3 | hp3
    · rw [hp3] at hs
      have hv : example_machine.deref 1 =
          some ⟨2, false, [⟨5, some 0, none⟩], some 20, none⟩ := rfl
      rw [hv] at hs
      cases hs
      decide
    · rw [hp3] at hs
      have hv : example_machine.deref 0 =
          some ⟨1, false, [⟨8, some 0, some 98⟩, ⟨7, some 1, some 99⟩], none, some 11⟩ := rfl
      rw [hv] at hs
      cases hs
      decide
  obtain ⟨_, _, h3, _, _, _, h4⟩ := h.1 hnew
  exact ⟨hr, rfl, h3, (h4 rfl).2,
    (h2.2 1 (by decide) ⟨2, false, [⟨5, some 0, none⟩], some 20, none⟩ rfl rfl).1⟩

end builder

/-! ### Invariants of the machines built through the public interface -/

section invariants

variable {S E : Type} [LinearOrder S] [LinearOrder E]

/-- C11: in a machine built through the public interface, the target of every event
of every live state object is a pointer to a state of the machine's set, whose
object is live: it is neither `nullptr` nor dangling. So the table dump prints the
id of that state in the NEXT_STATE cell of the event and never takes the branch for
a missing target. -/
theorem event_target_owned (m : state_machine S E) (hr : reachable m) (p : Nat)
    (s : state S E) (ev : event E) (hd : m.deref p = some s) (hev : ev ∈ s.get_events) :
    ∃ t nxt, ev.get_state = some t ∧ t ∈ m.get_states ∧ m.deref t = some nxt ∧
      m.dump_next_state ev = .ok (some nxt.get_id) := by
  have hw := reachable_well_formed m hr
  obtain ⟨t, ht, htm⟩ := hw.target_mem p s hd ev hev
  obtain ⟨nxt, hn⟩ := deref_of_lt m t (hw.ptr_valid t htm)
  refine ⟨t, nxt, ht, htm, hn, ?_⟩
  simp only [state_machine.dump_next_state, event.get_state, ht, hn]

/-- Witness for C11: event 7 of the state at address 0 of `example_machine` targets
the state with id 2 at address 1. -/
theorem event_target_owned_witness :
    reachable example_machine ∧
    example_machine.deref 0 =
      some ⟨1, false, [⟨8, some 0, some 98⟩, ⟨7, some 1, some 99⟩], none, some 11⟩ ∧
    ∃ t nxt, event.get_state (⟨7, some 1, some 99⟩ : event Nat) = some t ∧
      t ∈ example_machine.get_states ∧ example_machine.deref t = some nxt ∧
      example_machine.dump_next_state ⟨7, some 1, some 99⟩ = .ok (some nxt.get_id) :=
  ⟨⟨example_ops, rfl⟩, rfl,
    event_target_owned example_machine ⟨example_ops, rfl⟩ 0
      ⟨1, false, [⟨8, some 0, some 98⟩, ⟨7, some 1, some 99⟩], none, some 11⟩
      ⟨7, some 1, some 99⟩ rfl (by decide)⟩

/-- C12, as stated, fails on the newly constructed machine: it is reachable (by the
empty sequence of calls), and its current and initial pointers are `nullptr`, so
neither refers to a state of the set. -/
theorem cursors_owned_counterexample :
    reachable (state_machine.init : state_machine Nat Nat) ∧
    ¬ (∃ c ∈ (state_machine.init : state_machine Nat Nat).get_states,
        (state_machine.init : state_machine Nat Nat).get_current_state = some c) ∧
    ¬ (∃ i ∈ (state_machine.init : state_machine Nat Nat).get_states,
        (state_machine.init : state_machine Nat Nat).get_initial_state = some i) := by
  refine ⟨⟨[], rfl⟩, ?_, ?_⟩
  · rintro ⟨c, hc, _⟩
    cases hc
  · rintro ⟨i, hi, _⟩
    cases hi

/-- C12, amended: in a machine built through the public interface that holds at
least one state, the current and the initial pointer each refer to a state of the
machine's set, whose object is live; in a machine that holds no state both are
`nullptr`. -/
theorem cursors_owned (m : state_machine S E) (hr : reachable m) :
    (m.get_states ≠ [] →
      ∃ c i cur ini, m.get_current_state = some c ∧ c ∈ m.get_states ∧
        m.deref c = some cur ∧ m.get_initial_state = some i ∧ i ∈ m.get_states ∧
        m.deref i = some ini) ∧
    (m.get_states = [] → m.get_current_state = none ∧ m.get_initial_state = none) := by
  have hw := reachable_well_formed m hr
  simp only [state_machine.get_states, state_machine.get_current_state,
    state_machine.get_initial_state]
  constructor
  · intro hne
    cases hc : m._current with
    | none => exact absurd hc (hw.current_some hne)
    | some c =>
      cases hi : m._initial with
      | none => exact absurd hi (hw.initial_some hne)
      | some i =>
        have hcm := hw.current_mem c hc
        have him := hw.initial_mem i hi
        obtain ⟨cur, hcur⟩ := deref_of_lt m c (hw.ptr_valid c hcm)
        obtain ⟨ini, hini⟩ := deref_of_lt m i (hw.ptr_valid i him)
        exact ⟨c, i, cur, ini, rfl, hcm, hcur, rfl, him, hini⟩
  · intro h0
    constructor
    · cases hc : m._current with
      | none => rfl
      | some c =>
        have := hw.current_mem c hc
        rw [h0] at this
        cases this
    · cases hi : m._initial with
      | none => rfl
      | some i =>
        have := hw.initial_mem i hi
        rw [h0] at this
        cases this

/-- Witness for the amended C12 on `example_machine`. -/
theorem cursors_owned_witness :
    reachable example_machine ∧
    (example_machine.get_states ≠ [] →
      ∃ c i cur ini, example_machine.get_current_state = some c ∧
        c ∈ example_machine.get_states ∧ example_machine.deref c = some cur ∧
        example_machine.get_initial_state = some i ∧ i ∈ example_machine.get_states ∧
        example_machine.deref i = some ini) :=
  ⟨⟨example_ops, rfl⟩, (cursors_owned example_machine ⟨example_ops, rfl⟩).1⟩

/-- C13: in a machine built through the public interface, two different states of
the set have different ids, the set holds no pointer twice, and the events of a
state have pairwise different ids. -/
theorem ids_unique (m : state_machine S E) (hr : reachable m) :
    (∀ p q sp sq, p ∈ m.get_states → q ∈ m.get_states → m.deref p = some sp →
      m.deref q = some sq → p ≠ q → sp.get_id ≠ sq.get_id) ∧
    m.get_states.Nodup ∧
    (∀ p s, m.deref p = some s → (s.get_events.map event.get_id).Nodup) := by
  have hw := reachable_well_formed m hr
  refine ⟨?_, hw.states_nodup, hw.events_distinct⟩
  intro p q sp sq _ _ hp hq hne hid
  exact hne (hw.ids_distinct p q sp sq hp hq hid)

/-- Witness for C13 on `shared_event_machine`, where the event id 5 exists on both
states, which have different ids. -/
theorem ids_unique_witness :
    reachable shared_event_machine ∧
    (shared_event_machine.deref 0).map (fun s => s.get_events.map event.get_id) =
      some [5] ∧
    (shared_event_machine.deref 1).map (fun s => s.get_events.map event.get_id) =
      some [5] ∧
    ((∀ p q sp sq, p ∈ shared_event_machine.get_states →
      q ∈ shared_event_machine.get_states → shared_event_machine.deref p = some sp →
      shared_event_machine.deref q = some sq → p ≠ q → sp.get_id ≠ sq.get_id) ∧
    shared_event_machine.get_states.Nodup ∧
    (∀ p s, shared_event_machine.deref p = some s →
      (s.get_events.map event.get_id).Nodup)) :=
  ⟨⟨shared_event_ops, rfl⟩, rfl, rfl, ids_unique shared_event_machine ⟨shared_event_ops, rfl⟩⟩

end invariants

/-! ### Frame of dispatch and reset -/

section frame

variable {S E : Type} [LinearOrder S] [LinearOrder E]

/-- C20: dispatch, whether it returns or throws, and reset write nothing but the
current-state pointer: the heap of state objects (ids, accepted flags, events with
their targets and actions, entry and exit callbacks), the set of states and the
initial pointer are the same afterwards. -/
theorem dispatch_reset_frame (m : state_machine S E) (event_id : E) :
    (m.next_state event_id).machine =
      { m with _current := (m.next_state event_id).machine.get_current_state } ∧
    (m.next_state event_id).machine.heap = m.heap ∧
    (m.next_state event_id).machine.get_states = m.get_states ∧
    (m.next_state event_id).machine.get_initial_state = m.get_initial_state ∧
    m.reset.machine = { m with _current := m.reset.machine.get_current_state } ∧
    m.reset.machine.heap = m.heap ∧
    m.reset.machine.get_states = m.get_states ∧
    m.reset.machine.get_initial_state = m.get_initial_state := by
  obtain ⟨h1, h2, h3⟩ := next_state_frame m event_id
  refine ⟨?_, h1, h2, h3, rfl, rfl, rfl, rfl⟩
  cases hm : (m.next_state event_id).machine with
  | mk heap1 states1 initial1 current1 =>
    rw [hm] at h1 h2 h3
    simp only at h1 h2 h3
    simp only [state_machine.get_current_state]
    rw [h1, h2, h3]

end frame

/-! ### The overload of `add_event` with a target -/

section overloads

variable {S E : Type} [LinearOrder S] [LinearOrder E]

/-- C18: on a machine built through the public interface, when the state at `this`
already has an event `event_id` and no state has the id `next_state`, the call
`add_event(event_id, next_state, accepted)` throws the "mangling" runtime error
and yet leaves a machine with one more state, which has the id `next_state`, the
given accepted flag, no events and no callbacks and is found by `get_state`; the
state at `this` and its events are as before. -/
theorem add_event_next_not_atomic (m : state_machine S E) (hr : reachable m) (this : Nat)
    (self : state S E) (ev : event E) (next_state : S) (accepted : Bool)
    (hd : m.deref this = some self) (hev : ev ∈ self.get_events)
    (hnew : ∀ p ∈ m.get_states, ∀ s, m.deref p = some s → s.get_id ≠ next_state) :
    (m.add_event_next this ev.get_id next_state accepted).ret =
      .error error.duplicate_event ∧
    (m.add_event_next this ev.get_id next_state accepted).calls = [] ∧
    (m.add_event_next this ev.get_id next_state accepted).machine.get_states.Perm
      (m.heap.length :: m.get_states) ∧
    (m.add_event_next this ev.get_id next_state accepted).machine.deref m.heap.length =
      some (state.mk next_state accepted [] none none) ∧
    ((m.add_event_next this ev.get_id next_state accepted).machine.get_state
      next_state).ret = .ok (some m.heap.length) ∧
    (m.add_event_next this ev.get_id next_state accepted).machine.deref this =
      some self := by
  have hw := reachable_well_formed m hr
  have hfs := find_state_none_of m next_state hnew
  obtain ⟨_, _, hheap, hstates, _, _⟩ := add_state_of_fresh m next_state accepted hfs
  cases hf : self._find_event ev.get_id with
  | none => exact absurd rfl ((find_event_none_iff self ev.get_id).mp hf ev hev)
  | some ev0 =>
    rw [add_event_next_of_present m this self ev.get_id ev0 next_state accepted hd hf]
    refine ⟨rfl, rfl, ?_, ?_, ?_, ?_⟩
    · show (m.add_state next_state accepted).machine._states.Perm _
      rw [hstates]
      exact set_insert_perm _ _ _
        (add_state_insert_cond m next_state accepted hw.ptr_valid hfs)
    · show (m.add_state next_state accepted).machine.deref m.heap.length = _
      unfold state_machine.deref
      rw [hheap, List.getElem?_concat_length]
    · show ((m.add_state next_state accepted).machine.get_state next_state).ret = _
      simp only [state_machine.get_state,
        find_state_after_fresh m next_state accepted hw.ptr_valid hfs]
    · show (m.add_state next_state accepted).machine.deref this = _
      rw [add_state_deref_old m next_state accepted this (deref_lt m this self hd)]
      exact hd

/-- Witness for C18: on `example_machine` the state at address 0 has the event 7;
asking again for event 7, now to the new id 3, throws and creates the state 3 at
address 2. -/
theorem add_event_next_not_atomic_witness :
    reachable example_machine ∧
    example_machine.deref 0 =
      some ⟨1, false, [⟨8, some 0, some 98⟩, ⟨7, some 1, some 99⟩], none, some 11⟩ ∧
    (example_machine.add_event_next 0 7 3 true).ret = .error error.duplicate_event ∧
    (example_machine.add_event_next 0 7 3 true).machine.deref 2 =
      some ⟨3, true, [], none, none⟩ ∧
    ((example_machine.add_event_next 0 7 3 true).machine.get_state 3).ret =
      .ok (some 2) := by
  have hr : reachable example_machine := ⟨example_ops, rfl⟩
  have hnew : ∀ p ∈ example_machine.get_states, ∀ s, example_machine.deref p = some s →
      s.get_id ≠ 3 := by
    intro p hp s hs
    have hp2 : p = 1 ∨ p = 0 := by
      have hl : example_machine.get_states = [1, 0] := rfl
      rw [hl] at hp
      simpa using hp
    rcases hp2 with hp3 | hp3
    · rw [hp3] at hs
      have hv : example_machine.deref 1 =
          some ⟨2, false, [⟨5, some 0, none⟩], some 20, none⟩ := rfl
      rw [hv] at hs
      cases hs
      decide
    · rw [hp3] at hs
      have hv : example_machine.deref 0 =
          some ⟨1, false, [⟨8, some 0, some 98⟩, ⟨7, some 1, some 99⟩], none, some 11⟩ := rfl
      rw [hv] at hs
      cases hs
      decide
  have h := add_event_next_not_atomic example_machine hr 0
    ⟨1, false, [⟨8, some 0, some 98⟩, ⟨7, some 1, some 99⟩], none, some 11⟩
    ⟨7, some 1, some 99⟩ 3 true rfl (by decide) hnew
  exact ⟨hr, rfl, h.1, h.2.2.2.1, h.2.2.2.2.1⟩

/-- C19: on a machine built through the public interface, calling
`add_event(event_id, id, accepted)` on a state with its own `id` as the target gives
the same result as `add_event(event_id)`: the same return value or exception, the
same machine afterwards (so the accepted flag of the state is not touched by
`accepted`) and no callback. -/
theorem add_event_overloads_agree (m : state_machine S E) (hr : reachable m) (this : Nat)
    (self : state S E) (event_id : E) (accepted : Bool) (hd : m.deref this = some self) :
    m.add_event_next this event_id self.get_id accepted = m.add_event this event_id := by
  have hw := reachable_well_formed m hr
  have hmem := hw.heap_owned this (deref_lt m this self hd)
  cases hfs : m._find_state self.get_id with
  | none => exact absurd rfl (find_state_none m self.get_id hfs this hmem self hd)
  | some p =>
    obtain ⟨_, s1, hs1, hid1⟩ := find_state_some m self.get_id p hfs
    have hpp : p = this := hw.ids_distinct p this s1 self hs1 hd hid1
    rw [hpp] at hfs
    have hadd := add_state_of_found m self.get_id accepted this hfs
    cases hf : self._find_event event_id with
    | none =>
      have hret : (m.add_state self.get_id accepted).ret = .ok this := by rw [hadd]
      rw [add_event_next_of_absent m this this self event_id self.get_id accepted hd hf hret,
        add_event_of_absent m this self event_id hd hf, hadd]
    | some ev0 =>
      rw [add_event_next_of_present m this self event_id ev0 self.get_id accepted hd hf,
        add_event_of_present m this self event_id ev0 hd hf, hadd]

/-- Witness for C19: on `example_machine` the state at address 0 has id 1 and is
not accepted; a new event 9 to id 1, asked for with the flag true. -/
theorem add_event_overloads_agree_witness :
    reachable example_machine ∧
    example_machine.deref 0 =
      some ⟨1, false, [⟨8, some 0, some 98⟩, ⟨7, some 1, some 99⟩], none, some 11⟩ ∧
    example_machine.add_event_next 0 9 1 true = example_machine.add_event 0 9 :=
  ⟨⟨example_ops, rfl⟩, rfl,
    add_event_overloads_agree example_machine ⟨example_ops, rfl⟩ 0
      ⟨1, false, [⟨8, some 0, some 98⟩, ⟨7, some 1, some 99⟩], none, some 11⟩ 9 true rfl⟩

end overloads

/-! ### Dispatch and the accepted flag -/

section accepted

variable {S E : Type} [LinearOrder S] [LinearOrder E]

theorem forget_accepted_eq (s1 s2 : state S E)
    (h : s1.forget_accepted = s2.forget_accepted) :
    s1._id = s2._id ∧ s1._events = s2._events ∧ s1._entry_action = s2._entry_action ∧
    s1._exit_action = s2._exit_action := by
  cases s1
  cases s2
  simp only [state.forget_accepted, state.mk.injEq] at h
  exact ⟨h.1, h.2.2.1, h.2.2.2.1, h.2.2.2.2⟩

theorem deref_same_but_accepted (m1 m2 : state_machine S E) (h : same_but_accepted m1 m2)
    (p : Nat) :
    (m1.deref p).map state.forget_accepted = (m2.deref p).map state.forget_accepted := by
  unfold state_machine.deref
  rw [← List.getElem?_map, ← List.getElem?_map, h.1]

theorem deref_related (m1 m2 : state_machine S E) (h : same_but_accepted m1 m2) (p : Nat) :
    (m1.deref p = none ∧ m2.deref p = none) ∨
    ∃ s1 s2, m1.deref p = some s1 ∧ m2.deref p = some s2 ∧
      s1.forget_accepted = s2.forget_accepted := by
  have hp := deref_same_but_accepted m1 m2 h p
  cases h1 : m1.deref p with
  | none =>
    cases h2 : m2.deref p with
    | none => exact Or.inl ⟨rfl, rfl⟩
    | some s2 => rw [h1, h2] at hp; cases hp
  | some s1 =>
    cases h2 : m2.deref p with
    | none => rw [h1, h2] at hp; cases hp
    | some s2 =>
      rw [h1, h2] at hp
      exact Or.inr ⟨s1, s2, rfl, rfl, Option.some.inj hp⟩

theorem next_state_of_no_current (m : state_machine S E) (event_id : E)
    (hc : m._current = none) :
    m.next_state event_id =
      { machine := m, calls := [], ret := .error error.null_dereference } := by
  simp only [state_machine.next_state, hc]

theorem next_state_of_dangling_current (m : state_machine S E) (c : Nat) (event_id : E)
    (hc : m._current = some c) (hd : m.deref c = none) :
    m.next_state event_id =
      { machine := m, calls := [], ret := .error error.null_dereference } := by
  simp only [state_machine.next_state, hc, hd]

theorem next_state_of_null_target (m : state_machine S E) (c : Nat) (cur : state S E)
    (event_id : E) (ev : event E) (hc : m._current = some c) (hd : m.deref c = some cur)
    (h : cur._find_event event_id = some ev) (ht : ev._state = none) :
    m.next_state event_id =
      { machine := m, calls := [], ret := .error error.null_dereference } := by
  simp [state_machine.next_state, hc, hd, get_event_eq_find, h, event.get_state, ht]

theorem next_state_of_dangling_target (m : state_machine S E) (c t : Nat) (cur : state S E)
    (event_id : E) (ev : event E) (hc : m._current = some c) (hd : m.deref c = some cur)
    (h : cur._find_event event_id = some ev) (ht : ev._state = some t) (hne : t ≠ c)
    (hn : m.deref t = none) :
    m.next_state event_id =
      { machine := m, calls := [], ret := .error error.null_dereference } := by
  have hne2 : ¬ (some c : state_ptr) = some t := fun hx => hne (Option.some.inj hx).symm
  simp [state_machine.next_state, hc, hd, get_event_eq_find, h, event.get_state, ht, hne2, hn]

/-- One dispatch on two machines that differ in accepted flags only: the same value
or exception, the same callbacks, and machines that again differ in accepted flags
only. -/
theorem next_state_same_but_accepted (m1 m2 : state_machine S E)
    (h : same_but_accepted m1 m2) (event_id : E) :
    (m1.next_state event_id).ret = (m2.next_state event_id).ret ∧
    (m1.next_state event_id).calls = (m2.next_state event_id).calls ∧
    same_but_accepted (m1.next_state event_id).machine (m2.next_state event_id).machine := by
  obtain ⟨hheap, hstates, hinit, hcur⟩ := h
  have h0 : same_but_accepted m1 m2 := ⟨hheap, hstates, hinit, hcur⟩
  cases hc1 : m1._current with
  | none =>
    have hc2 : m2._current = none := by rw [← hcur, hc1]
    rw [next_state_of_no_current m1 event_id hc1, next_state_of_no_current m2 event_id hc2]
    exact ⟨rfl, rfl, h0⟩
  | some c =>
    have hc2 : m2._current = some c := by rw [← hcur, hc1]
    rcases deref_related m1 m2 h0 c with ⟨hd1, hd2⟩ | ⟨s1, s2, hd1, hd2, hs⟩
    · rw [next_state_of_dangling_current m1 c event_id hc1 hd1,
        next_state_of_dangling_current m2 c event_id hc2 hd2]
      exact ⟨rfl, rfl, h0⟩
    · obtain ⟨_, hev, _, hexit⟩ := forget_accepted_eq s1 s2 hs
      have hfind : s2._find_event event_id = s1._find_event event_id := by
        simp only [state._find_event, hev]
      cases hf1 : s1._find_event event_id with
      | none =>
        have hf2 : s2._find_event event_id = none := by rw [hfind, hf1]
        rw [next_state_of_absent m1 c s1 event_id hc1 hd1 hf1,
          next_state_of_absent m2 c s2 event_id hc2 hd2 hf2]
        exact ⟨rfl, rfl, h0⟩
      | some ev =>
        have hf2 : s2._find_event event_id = some ev := by rw [hfind, hf1]
        cases ht : ev._state with
        | none =>
          rw [next_state_of_null_target m1 c s1 event_id ev hc1 hd1 hf1 ht,
            next_state_of_null_target m2 c s2 event_id ev hc2 hd2 hf2 ht]
          exact ⟨rfl, rfl, h0⟩
        | some t =>
          by_cases hne : t = c
          · rw [next_state_of_self m1 c s1 event_id ev hc1 hd1 hf1 (hne ▸ ht),
              next_state_of_self m2 c s2 event_id ev hc2 hd2 hf2 (hne ▸ ht)]
            exact ⟨rfl, rfl, h0⟩
          · rcases deref_related m1 m2 h0 t with ⟨hn1, hn2⟩ | ⟨n1, n2, hn1, hn2, hn⟩
            · rw [next_state_of_dangling_target m1 c t s1 event_id ev hc1 hd1 hf1 ht hne hn1,
                next_state_of_dangling_target m2 c t s2 event_id ev hc2 hd2 hf2 ht hne hn2]
              exact ⟨rfl, rfl, h0⟩
            · obtain ⟨_, _, hentry, _⟩ := forget_accepted_eq n1 n2 hn
              rw [next_state_of_other m1 c t s1 n1 event_id ev hc1 hd1 hf1 ht hne hn1,
                next_state_of_other m2 c t s2 n2 event_id ev hc2 hd2 hf2 ht hne hn2]
              refine ⟨rfl, ?_, hheap, hstates, hinit, rfl⟩
              simp only [hexit, hentry]

theorem current_id_same_but_accepted (m1 m2 : state_machine S E)
    (h : same_but_accepted m1 m2) : m1.current_id = m2.current_id := by
  unfold state_machine.current_id state_machine.get_current_state
  rw [h.2.2.2]
  cases hc : m2._current with
  | none => rfl
  | some c =>
    show (m1.deref c).map state.get_id = (m2.deref c).map state.get_id
    rcases deref_related m1 m2 h c with ⟨hd1, hd2⟩ | ⟨s1, s2, hd1, hd2, hs⟩
    · rw [hd1, hd2]
    · rw [hd1, hd2]
      simp only [Option.map_some', state.get_id, (forget_accepted_eq s1 s2 hs).1]

/-- C15: dispatch does not read the accepted flags. Two machines that are identical
except for the accepted flags of their states give, for every sequence of event
ids dispatched one after the other, the same sequence of return values or
exceptions, of callback invocations and of current state ids. -/
theorem dispatch_ignores_accepted (m1 m2 : state_machine S E) (es : List E)
    (h : same_but_accepted m1 m2) : m1.dispatch_all es = m2.dispatch_all es := by
  induction es generalizing m1 m2 with
  | nil => rfl
  | cons e es ih =>
    obtain ⟨h1, h2, h3⟩ := next_state_same_but_accepted m1 m2 h e
    simp only [state_machine.dispatch_all]
    rw [h1, h2, current_id_same_but_accepted _ _ h3, ih _ _ h3]

/-- Witness for C15: `example_machine` and `flipped_machine` differ in the accepted
flags of both states and answer the dispatches 7, 7, 5, 9 alike. -/
theorem dispatch_ignores_accepted_witness :
    same_but_accepted example_machine flipped_machine ∧
    (example_machine.deref 0).map state.is_accepted = some false ∧
    (flipped_machine.deref 0).map state.is_accepted = some true ∧
    example_machine.dispatch_all [7, 7, 5, 9] = flipped_machine.dispatch_all [7, 7, 5, 9] :=
  ⟨⟨rfl, rfl, rfl, rfl⟩, rfl, rfl,
    dispatch_ignores_accepted example_machine flipped_machine [7, 7, 5, 9]
      ⟨rfl, rfl, rfl, rfl⟩⟩

end accepted

/-! ### Dispatch into a terminal state -/

section terminal

variable {S E : Type} [LinearOrder S] [LinearOrder E]

theorem run_dispatch_terminal (m : state_machine S E) (b : Nat) (sb : state S E)
    (hc : m._current = some b) (hd : m.deref b = some sb) (h0 : sb._events = [])
    (es : List E) : m.run (es.map op.next_state) = m := by
  induction es with
  | nil => rfl
  | cons e es ih =>
    have hf : sb._find_event e = none :=
      (find_event_none_iff sb e).mpr (fun ev hev => by rw [h0] at hev; cases hev)
    simp only [List.map_cons, state_machine.run, state_machine.apply]
    rw [next_state_of_absent m b sb e hc hd hf]
    exact ih

/-- C16: `is_terminal()` is true of a state if and only if the state has no
events. Let the current state `a` have an event `g` with a bound action `f` whose
target is another state `b`, and let `b` be terminal. Then dispatching `g` returns
`b` and makes it current, and invokes the action once, first, with `(g, a, b)`,
followed only by the exit callback of `a` and the entry callback of `b` if bound.
After that every dispatch of every event id, `g` included, throws the "no event"
error, invokes nothing and leaves `b` current, however many dispatches came before;
after `reset`, when `a` is the initial state, `g` can be dispatched again. -/
theorem dispatch_to_terminal (m : state_machine S E) (a b : Nat) (sa sb : state S E)
    (g : E) (ev : event E) (f : callback) :
    (∀ s : state S E, s.is_terminal = true ↔ s.get_events = []) ∧
    (m.get_current_state = some a → m.deref a = some sa →
      sa.get_event g = some ev → ev._action = some f →
      ev.get_state = some b → b ≠ a → m.deref b = some sb →
      sb.is_terminal = true →
      (m.next_state g).ret = .ok (some b) ∧
      (m.next_state g).machine.get_current_state = some b ∧
      (m.next_state g).calls =
        call.action f ev (some a) (some b) ::
          ((sa._exit_action.map (fun x => call.exit_action x (some b))).toList ++
            (sb._entry_action.map (fun x => call.entry_action x (some a))).toList) ∧
      (∀ (es : List E) (e : E),
        ((m.next_state g).machine.run (es.map op.next_state)).next_state e =
          { machine := (m.next_state g).machine,
            calls := [],
            ret := .error error.no_such_event }) ∧
      (m.get_initial_state = some a →
        ((m.next_state g).machine.reset.machine.next_state g).ret = .ok (some b))) := by
  have hiff : ∀ s : state S E, s.is_terminal = true ↔ s.get_events = [] := by
    intro s
    simp [state.is_terminal, state.get_events]
  refine ⟨hiff, ?_⟩
  intro hc hda hg hf ht hne hdb hterm
  have h0 : sb._events = [] := (hiff sb).mp hterm
  rw [get_event_eq_find] at hg
  unfold state_machine.get_current_state at hc
  have hstep := next_state_of_other m a b sa sb g ev hc hda hg ht hne hdb
  rw [hstep]
  refine ⟨rfl, rfl, ?_, ?_, ?_⟩
  · simp [hf]
  · intro es e
    have hc1 : ({ m with _current := some b } : state_machine S E)._current = some b := rfl
    have hd1 : ({ m with _current := some b } : state_machine S E).deref b = some sb := hdb
    rw [run_dispatch_terminal _ b sb hc1 hd1 h0 es]
    exact next_state_of_absent _ b sb e hc1 hd1
      ((find_event_none_iff sb e).mpr (fun x hx => by rw [h0] at hx; cases hx))
  · intro hi
    unfold state_machine.get_initial_state at hi
    have hc2 : (state_machine.reset
        ({ m with _current := some b } : state_machine S E)).machine._current = some a := hi
    rw [next_state_of_other _ a b sa sb g ev hc2 hda hg ht hne hdb]

/-- Witness for C16 on `go_machine`: state 1 at address 0 (initial, not accepted),
state 2 at address 1 without events, hence terminal, event 7 from the first to the
second bound to action 99. The first dispatch of 7 invokes the action with
(7, 0, 1) and nothing else; the second throws. A state with an event is not
terminal. -/
theorem dispatch_to_terminal_witness :
    go_machine.get_current_state = some 0 ∧
    go_machine.deref 0 = some ⟨1, false, [⟨7, some 1, some 99⟩], none, none⟩ ∧
    go_machine.deref 1 = some ⟨2, false, [], none, none⟩ ∧
    state.is_terminal (⟨2, false, [], none, none⟩ : state Nat Nat) = true ∧
    ¬ state.is_terminal
      (⟨1, false, [⟨7, some 1, some 99⟩], none, none⟩ : state Nat Nat) = true ∧
    (go_machine.next_state 7).machine.get_current_state = some 1 ∧
    (go_machine.next_state 7).calls = [call.action 99 ⟨7, some 1, some 99⟩ (some 0) (some 1)] ∧
    ((go_machine.next_state 7).machine.next_state 7).ret = .error error.no_such_event ∧
    ((go_machine.next_state 7).machine.next_state 7).machine.get_current_state = some 1 := by
  have h0 := dispatch_to_terminal go_machine 0 1
    ⟨1, false, [⟨7, some 1, some 99⟩], none, none⟩ ⟨2, false, [], none, none⟩ 7
    ⟨7, some 1, some 99⟩ 99
  have h := h0.2 rfl rfl rfl rfl rfl (by decide) rfl ((h0.1 _).mpr rfl)
  have h2 : (go_machine.next_state 7).machine.next_state 7 =
      { machine := (go_machine.next_state 7).machine,
        calls := [],
        ret := .error error.no_such_event } := h.2.2.2.1 [] 7
  refine ⟨rfl, rfl, rfl, (h0.1 _).mpr rfl, ?_, h.2.1, h.2.2.1, ?_, ?_⟩
  · intro hx
    have := (h0.1 _).mp hx
    cases this
  · rw [h2]
  · rw [h2]
    exact h.2.1

end terminal

/-! ### Nothing is removed or retargeted -/

section monotone

variable {S E : Type} [LinearOrder S] [LinearOrder E]

theorem mem_modify_first_conv {α : Type} (p : α → Bool) (f : α → α) (y : α) (xs : List α)
    (h : y ∈ xs) : y ∈ modify_first p f xs ∨ f y ∈ modify_first p f xs := by
  induction xs with
  | nil => cases h
  | cons z zs ih =>
    unfold modify_first
    split_ifs with h1
    · rcases List.mem_cons.mp h with h2 | h2
      · exact Or.inr (h2 ▸ List.mem_cons_self _ _)
      · exact Or.inl (List.mem_cons_of_mem _ h2)
    · rcases List.mem_cons.mp h with h2 | h2
      · exact Or.inl (h2 ▸ List.mem_cons_self _ _)
      · rcases ih h2 with h3 | h3
        · exact Or.inl (List.mem_cons_of_mem _ h3)
        · exact Or.inr (List.mem_cons_of_mem _ h3)

theorem state_extends_refl (s : state S E) : state_extends s s :=
  ⟨rfl, rfl, fun ev hev => ⟨ev, hev, rfl, rfl⟩⟩

theorem state_extends_trans (s s1 s2 : state S E) (h1 : state_extends s s1)
    (h2 : state_extends s1 s2) : state_extends s s2 := by
  refine ⟨h2.1.trans h1.1, h2.2.1.trans h1.2.1, ?_⟩
  intro ev hev
  obtain ⟨ev1, hev1, hid1, ht1⟩ := h1.2.2 ev hev
  obtain ⟨ev2, hev2, hid2, ht2⟩ := h2.2.2 ev1 hev1
  exact ⟨ev2, hev2, hid2.trans hid1, ht2.trans ht1⟩

theorem machine_extends_refl (m : state_machine S E) : machine_extends m m :=
  fun _ hp => ⟨hp, fun s hs => ⟨s, hs, state_extends_refl s⟩⟩

theorem machine_extends_trans (m m1 m2 : state_machine S E) (h1 : machine_extends m m1)
    (h2 : machine_extends m1 m2) : machine_extends m m2 := by
  intro p hp
  obtain ⟨hp1, hs1⟩ := h1 p hp
  obtain ⟨hp2, hs2⟩ := h2 p hp1
  refine ⟨hp2, ?_⟩
  intro s hs
  obtain ⟨s1, hd1, he1⟩ := hs1 s hs
  obtain ⟨s2, hd2, he2⟩ := hs2 s1 hd1
  exact ⟨s2, hd2, state_extends_trans s s1 s2 he1 he2⟩

/-- A machine with the same heap and the same set extends the machine. -/
theorem machine_extends_of_frame (m m1 : state_machine S E) (hh : m1.heap = m.heap)
    (hs : m1._states = m._states) : machine_extends m m1 := by
  intro p hp
  refine ⟨?_, ?_⟩
  · show p ∈ m1._states
    rw [hs]
    exact hp
  · intro s hd
    refine ⟨s, ?_, state_extends_refl s⟩
    unfold state_machine.deref at hd ⊢
    rw [hh]
    exact hd

theorem store_extends (m : state_machine S E) (this : Nat) (self s1 : state S E)
    (hd : m.deref this = some self) (h : state_extends self s1) :
    machine_extends m (m.store this s1) := by
  intro p hp
  refine ⟨hp, ?_⟩
  intro s hs
  by_cases hpt : p = this
  · rw [hpt] at hs ⊢
    rw [hd] at hs
    cases hs
    exact ⟨s1, deref_store_self m this s1 (deref_lt m this self hd), h⟩
  · exact ⟨s, by rw [deref_store_other m this p s1 hpt]; exact hs, state_extends_refl s⟩

theorem add_state_extends (m : state_machine S E) (state_id : S) (accepted : Bool) :
    machine_extends m (m.add_state state_id accepted).machine := by
  cases hf : m._find_state state_id with
  | some q => rw [add_state_of_found m state_id accepted q hf]; exact machine_extends_refl m
  | none =>
    intro p hp
    refine ⟨?_, ?_⟩
    · show p ∈ (m.add_state state_id accepted).machine._states
      rw [(add_state_of_fresh m state_id accepted hf).2.2.2.1]
      exact mem_set_insert_of_mem _ _ _ _ hp
    · intro s hs
      refine ⟨s, ?_, state_extends_refl s⟩
      rw [add_state_deref_old m state_id accepted p (deref_lt m p s hs)]
      exact hs

theorem insert_event_extends (self : state S E) (t : event E) :
    state_extends self (self.insert_event t) :=
  ⟨rfl, rfl, fun ev hev => ⟨ev, mem_set_insert_of_mem _ _ _ _ hev, rfl, rfl⟩⟩

theorem bind_event_action_extends (self : state S E) (event_id : E)
    (action : Option callback) :
    state_extends self (self.bind_event_action event_id action) := by
  refine ⟨rfl, rfl, ?_⟩
  intro ev hev
  rcases mem_modify_first_conv
    (fun y => !_event_comparer (event.mk event_id none none) y &&
      !_event_comparer y (event.mk event_id none none))
    (fun y : event E => y.bind_action action) ev self._events hev with h1 | h1
  · exact ⟨ev, h1, rfl, rfl⟩
  · exact ⟨ev.bind_action action, h1, rfl, rfl⟩

theorem add_event_extends (m : state_machine S E) (this : Nat) (event_id : E) :
    machine_extends m (m.add_event this event_id).machine := by
  cases hd : m.deref this with
  | none =>
    simp only [state_machine.add_event, hd]
    exact machine_extends_refl m
  | some self =>
    cases hf : self._find_event event_id with
    | some ev =>
      rw [add_event_of_present m this self event_id ev hd hf]
      exact machine_extends_refl m
    | none =>
      rw [add_event_of_absent m this self event_id hd hf]
      exact store_extends m this self _ hd (insert_event_extends self _)

theorem add_event_next_extends (m : state_machine S E) (this : Nat) (event_id : E)
    (next_state : S) (accepted : Bool) :
    machine_extends m (m.add_event_next this event_id next_state accepted).machine := by
  cases hd : m.deref this with
  | none =>
    simp only [state_machine.add_event_next, hd]
    exact machine_extends_refl m
  | some self =>
    have h1 := add_state_extends m next_state accepted
    have hd1 : (m.add_state next_state accepted).machine.deref this = some self := by
      rw [add_state_deref_old m next_state accepted this (deref_lt m this self hd)]
      exact hd
    cases hf : self._find_event event_id with
    | some ev =>
      rw [add_event_next_of_present m this self event_id ev next_state accepted hd hf]
      exact h1
    | none =>
      obtain ⟨s, hs, _⟩ := add_state_ret_ok m next_state accepted
      rw [add_event_next_of_absent m this s self event_id next_state accepted hd hf hs]
      exact machine_extends_trans _ _ _ h1
        (store_extends _ this self _ hd1 (insert_event_extends self _))

theorem bind_entry_action_extends (m : state_machine S E) (this : Nat)
    (f : Option callback) : machine_extends m (m.bind_entry_action this f).machine := by
  cases hd : m.deref this with
  | none =>
    simp only [state_machine.bind_entry_action, hd]
    exact machine_extends_refl m
  | some self =>
    simp only [state_machine.bind_entry_action, hd]
    exact store_extends m this self _ hd
      ⟨rfl, rfl, fun ev hev => ⟨ev, hev, rfl, rfl⟩⟩

theorem bind_exit_action_extends (m : state_machine S E) (this : Nat)
    (f : Option callback) : machine_extends m (m.bind_exit_action this f).machine := by
  cases hd : m.deref this with
  | none =>
    simp only [state_machine.bind_exit_action, hd]
    exact machine_extends_refl m
  | some self =>
    simp only [state_machine.bind_exit_action, hd]
    exact store_extends m this self _ hd
      ⟨rfl, rfl, fun ev hev => ⟨ev, hev, rfl, rfl⟩⟩

theorem bind_action_extends (m : state_machine S E) (this : Nat) (event_id : E)
    (f : Option callback) : machine_extends m (m.bind_action this event_id f).machine := by
  cases hd : m.deref this with
  | none =>
    simp only [state_machine.bind_action, hd]
    exact machine_extends_refl m
  | some self =>
    cases hf : self._find_event event_id with
    | none =>
      simp only [state_machine.bind_action, hd, get_event_eq_find, hf]
      exact machine_extends_refl m
    | some ev =>
      rw [bind_action_of_found m this self event_id ev f hd hf]
      exact store_extends m this self _ hd (bind_event_action_extends self event_id f)

theorem apply_extends (m : state_machine S E) (o : op S E) :
    machine_extends m (m.apply o) := by
  cases o with
  | add_state state_id accepted => exact add_state_extends m state_id accepted
  | add_event this event_id => exact add_event_extends m this event_id
  | add_event_next this event_id next_state accepted =>
    exact add_event_next_extends m this event_id next_state accepted
  | bind_entry_action this f => exact bind_entry_action_extends m this f
  | bind_exit_action this f => exact bind_exit_action_extends m this f
  | bind_action this event_id f => exact bind_action_extends m this event_id f
  | next_state event_id =>
    exact machine_extends_of_frame m _ (next_state_frame m event_id).1
      (next_state_frame m event_id).2.1
  | reset => exact machine_extends_of_frame m _ rfl rfl

theorem run_extends (os : List (op S E)) (m : state_machine S E) :
    machine_extends m (m.run os) := by
  induction os generalizing m with
  | nil => exact machine_extends_refl m
  | cons o os ih => exact machine_extends_trans _ _ _ (apply_extends m o) (ih (m.apply o))

/-- C17: no call of the public interface removes or retargets anything. After any
sequence of calls (`add_state`, both `add_event` overloads, the bind calls,
dispatch, reset), every state of the set is still in the set, at the same address,
with the same id and accepted flag, and every event it had is still there with the
same id and the same target; so a state that has an event (is not terminal) is not
terminal afterwards. The lookups `get_state` and `get_event` return the machine
unchanged. -/
theorem nothing_removed (m : state_machine S E) (os : List (op S E)) (x : S) (this : Nat)
    (e : E) :
    (∀ p ∈ m.get_states, p ∈ (m.run os).get_states ∧
      ∀ s, m.deref p = some s → ∃ s1, (m.run os).deref p = some s1 ∧
        s1.get_id = s.get_id ∧ s1.is_accepted = s.is_accepted ∧
        (∀ ev ∈ s.get_events, ∃ ev1 ∈ s1.get_events,
          ev1.get_id = ev.get_id ∧ ev1.get_state = ev.get_state) ∧
        (s.is_terminal = false → s1.is_terminal = false)) ∧
    (m.get_state x).machine = m ∧ (m.get_event this e).machine = m := by
  refine ⟨?_, ?_, ?_⟩
  · intro p hp
    obtain ⟨hp1, hs1⟩ := run_extends os m p hp
    refine ⟨hp1, ?_⟩
    intro s hs
    obtain ⟨s1, hd1, hid, hacc, hev⟩ := hs1 s hs
    refine ⟨s1, hd1, hid, hacc, hev, ?_⟩
    intro hterm
    cases hl : s._events with
    | nil => simp [state.is_terminal, hl] at hterm
    | cons ev evs =>
      obtain ⟨ev1, hev1, _⟩ := hev ev (by simp [state.get_events, hl])
      cases hl1 : s1._events with
      | nil => simp [state.get_events, hl1] at hev1
      | cons ev2 evs2 => simp [state.is_terminal, hl1]
  · unfold state_machine.get_state
    split <;> rfl
  · unfold state_machine.get_event
    split <;> rfl

end monotone

/-! ### Lookups and the history of calls -/

section history

variable {S E : Type} [LinearOrder S] [LinearOrder E]

theorem deref_of_heap_eq (m m1 : state_machine S E) (h : m1.heap = m.heap) (p : Nat) :
    m1.deref p = m.deref p := by
  unfold state_machine.deref
  rw [h]

theorem has_id_of_heap_eq (m m1 : state_machine S E) (h : m1.heap = m.heap) (x : S) :
    m1.has_id x ↔ m.has_id x := by
  unfold state_machine.has_id
  simp only [deref_of_heap_eq m m1 h]

theorem has_event_of_heap_eq (m m1 : state_machine S E) (h : m1.heap = m.heap) (q : Nat)
    (e : E) (tgt : state_ptr) : m1.has_event q e tgt ↔ m.has_event q e tgt := by
  unfold state_machine.has_event
  simp only [deref_of_heap_eq m m1 h]

theorem store_has_id (m : state_machine S E) (this : Nat) (self s1 : state S E) (x : S)
    (hd : m.deref this = some self) (hid : s1.get_id = self.get_id) :
    (m.store this s1).has_id x ↔ m.has_id x := by
  have hlt := deref_lt m this self hd
  constructor
  · rintro ⟨p, s, hs, hx⟩
    by_cases hpt : p = this
    · rw [hpt, deref_store_self m this s1 hlt] at hs
      cases hs
      exact ⟨this, self, hd, hid.symm.trans hx⟩
    · rw [deref_store_other m this p s1 hpt] at hs
      exact ⟨p, s, hs, hx⟩
  · rintro ⟨p, s, hs, hx⟩
    by_cases hpt : p = this
    · rw [hpt, hd] at hs
      cases hs
      exact ⟨this, s1, deref_store_self m this s1 hlt, hid.trans hx⟩
    · exact ⟨p, s, by rw [deref_store_other m this p s1 hpt]; exact hs, hx⟩

theorem store_has_event_self (m : state_machine S E) (this : Nat) (self s1 : state S E)
    (e : E) (tgt : state_ptr) (hd : m.deref this = some self) :
    (m.store this s1).has_event this e tgt ↔
      ∃ ev ∈ s1.get_events, ev.get_id = e ∧ ev.get_state = tgt := by
  unfold state_machine.has_event
  rw [deref_store_self m this s1 (deref_lt m this self hd)]
  constructor
  · rintro ⟨s, hs, h⟩
    cases hs
    exact h
  · intro h
    exact ⟨s1, rfl, h⟩

theorem store_has_event_other (m : state_machine S E) (this q : Nat) (s1 : state S E)
    (e : E) (tgt : state_ptr) (hq : q ≠ this) :
    (m.store this s1).has_event q e tgt ↔ m.has_event q e tgt := by
  unfold state_machine.has_event
  rw [deref_store_other m this q s1 hq]

theorem has_event_self (m : state_machine S E) (this : Nat) (self : state S E)
    (e : E) (tgt : state_ptr) (hd : m.deref this = some self) :
    m.has_event this e tgt ↔ ∃ ev ∈ self.get_events, ev.get_id = e ∧ ev.get_state = tgt := by
  unfold state_machine.has_event
  rw [hd]
  constructor
  · rintro ⟨s, hs, h⟩
    cases hs
    exact h
  · intro h
    exact ⟨self, rfl, h⟩

/-- A write to the state at `this` that keeps the ids and targets of its events
keeps the events of every state. -/
theorem store_has_event_same (m : state_machine S E) (this q : Nat) (self s1 : state S E)
    (e : E) (tgt : state_ptr) (hd : m.deref this = some self)
    (h : (∃ ev ∈ s1.get_events, ev.get_id = e ∧ ev.get_state = tgt) ↔
      ∃ ev ∈ self.get_events, ev.get_id = e ∧ ev.get_state = tgt) :
    (m.store this s1).has_event q e tgt ↔ m.has_event q e tgt := by
  by_cases hq : q = this
  · rw [hq, store_has_event_self m this self s1 e tgt hd, has_event_self m this self e tgt hd]
    exact h
  · exact store_has_event_other m this q s1 e tgt hq

/-- A write that inserts an event with a new id adds that event to the state at
`this` and nothing else. -/
theorem store_has_event_insert (m : state_machine S E) (this q : Nat) (self : state S E)
    (t : event E) (e : E) (tgt : state_ptr) (hd : m.deref this = some self)
    (hf : self._find_event t._id = none) :
    (m.store this (self.insert_event t)).has_event q e tgt ↔
      m.has_event q e tgt ∨ (q = this ∧ t.get_id = e ∧ t.get_state = tgt) := by
  have hne := (find_event_none_iff self t._id).mp hf
  have hcond : ∀ y ∈ self._events,
      _event_comparer t y = true ∨ _event_comparer y t = true := by
    intro y hy
    simp only [_event_comparer, decide_eq_true_eq]
    rcases lt_trichotomy y._id t._id with h1 | h1 | h1
    · exact Or.inl h1
    · exact absurd h1 (hne y hy)
    · exact Or.inr h1
  by_cases hq : q = this
  · rw [hq, store_has_event_self m this self _ e tgt hd, has_event_self m this self e tgt hd]
    constructor
    · rintro ⟨ev, hev, hid, htg⟩
      rcases mem_set_insert_cases _ _ _ _ hev with h1 | h1
      · rw [h1] at hid htg
        exact Or.inr ⟨rfl, hid, htg⟩
      · exact Or.inl ⟨ev, h1, hid, htg⟩
    · rintro (⟨ev, hev, hid, htg⟩ | ⟨_, hid, htg⟩)
      · exact ⟨ev, mem_set_insert_of_mem _ _ _ _ hev, hid, htg⟩
      · exact ⟨t, mem_set_insert_self _ _ _ hcond, hid, htg⟩
  · rw [store_has_event_other m this q _ e tgt hq]
    constructor
    · intro h
      exact Or.inl h
    · rintro (h | ⟨h1, _⟩)
      · exact h
      · exact absurd h1 hq

theorem add_state_fresh_deref (m : state_machine S E) (state_id : S) (accepted : Bool)
    (hf : m._find_state state_id = none) (p : Nat) (s : state S E) :
    (m.add_state state_id accepted).machine.deref p = some s ↔
      m.deref p = some s ∨
        (p = m.heap.length ∧ s = state.mk state_id accepted [] none none) := by
  have hheap := (add_state_of_fresh m state_id accepted hf).2.2.1
  unfold state_machine.deref
  rw [hheap]
  rcases Nat.lt_trichotomy p m.heap.length with h1 | h1 | h1
  · rw [List.getElem?_append_left h1]
    constructor
    · intro h
      exact Or.inl h
    · rintro (h | ⟨h2, _⟩)
      · exact h
      · omega
  · rw [h1, List.getElem?_concat_length, List.getElem?_eq_none (le_refl _)]
    constructor
    · intro h
      cases h
      exact Or.inr ⟨rfl, rfl⟩
    · rintro (h | ⟨_, h2⟩)
      · cases h
      · rw [h2]
  · have h2 : (m.heap ++ [state.mk state_id accepted [] none none]).length ≤ p := by
      simp only [List.length_append, List.length_singleton]
      omega
    rw [List.getElem?_eq_none h2, List.getElem?_eq_none (le_of_lt h1)]
    constructor
    · intro h
      cases h
    · rintro (h | ⟨h3, _⟩)
      · cases h
      · omega

theorem add_state_has_id (m : state_machine S E) (state_id : S) (accepted : Bool) (x : S) :
    (m.add_state state_id accepted).machine.has_id x ↔ m.has_id x ∨ state_id = x := by
  cases hf : m._find_state state_id with
  | some q =>
    rw [add_state_of_found m state_id accepted q hf]
    constructor
    · intro h
      exact Or.inl h
    · rintro (h | h)
      · exact h
      · obtain ⟨_, s, hs, hid⟩ := find_state_some m state_id q hf
        exact ⟨q, s, hs, hid.trans h⟩
  | none =>
    unfold state_machine.has_id
    constructor
    · rintro ⟨p, s, hs, hx⟩
      rcases (add_state_fresh_deref m state_id accepted hf p s).mp hs with h1 | ⟨_, h2⟩
      · exact Or.inl ⟨p, s, h1, hx⟩
      · rw [h2] at hx
        exact Or.inr hx
    · rintro (⟨p, s, hs, hx⟩ | h)
      · exact ⟨p, s, (add_state_fresh_deref m state_id accepted hf p s).mpr (Or.inl hs), hx⟩
      · exact ⟨m.heap.length, state.mk state_id accepted [] none none,
          (add_state_fresh_deref m state_id accepted hf _ _).mpr (Or.inr ⟨rfl, rfl⟩), h⟩

theorem add_state_has_event (m : state_machine S E) (state_id : S) (accepted : Bool)
    (q : Nat) (e : E) (tgt : state_ptr) :
    (m.add_state state_id accepted).machine.has_event q e tgt ↔ m.has_event q e tgt := by
  cases hf : m._find_state state_id with
  | some p => rw [add_state_of_found m state_id accepted p hf]
  | none =>
    unfold state_machine.has_event
    constructor
    · rintro ⟨s, hs, ev, hev, h⟩
      rcases (add_state_fresh_deref m state_id accepted hf q s).mp hs with h1 | ⟨_, h2⟩
      · exact ⟨s, h1, ev, hev, h⟩
      · rw [h2] at hev
        cases hev
    · rintro ⟨s, hs, h⟩
      exact ⟨s, (add_state_fresh_deref m state_id accepted hf q s).mpr (Or.inl hs), h⟩

theorem apply_has_id (m : state_machine S E) (o : op S E) (x : S) :
    (m.apply o).has_id x ↔ m.has_id x ∨ o.requests_state m x = true := by
  cases o with
  | add_state state_id accepted =>
    simp only [state_machine.apply, op.requests_state, decide_eq_true_eq]
    exact add_state_has_id m state_id accepted x
  | add_event this event_id =>
    simp only [state_machine.apply, op.requests_state, Bool.false_eq_true, or_false]
    cases hd : m.deref this with
    | none => simp only [state_machine.add_event, hd]
    | some self =>
      cases hf : self._find_event event_id with
      | some ev => rw [add_event_of_present m this self event_id ev hd hf]
      | none =>
        rw [add_event_of_absent m this self event_id hd hf]
        exact store_has_id m this self _ x hd rfl
  | add_event_next this event_id next_state accepted =>
    simp only [state_machine.apply, op.requests_state]
    cases hd : m.deref this with
    | none =>
      simp only [state_machine.add_event_next, hd, Option.isSome_none, Bool.and_false,
        Bool.false_eq_true, or_false]
    | some self =>
      simp only [Option.isSome_some, Bool.and_true, decide_eq_true_eq]
      have hd1 : (m.add_state next_state accepted).machine.deref this = some self := by
        rw [add_state_deref_old m next_state accepted this (deref_lt m this self hd)]
        exact hd
      cases hf : self._find_event event_id with
      | some ev =>
        rw [add_event_next_of_present m this self event_id ev next_state accepted hd hf]
        exact add_state_has_id m next_state accepted x
      | none =>
        obtain ⟨s, hs, _⟩ := add_state_ret_ok m next_state accepted
        rw [add_event_next_of_absent m this s self event_id next_state accepted hd hf hs]
        exact (store_has_id _ this self
          (self.insert_event (event.mk event_id (some s) none)) x hd1 rfl).trans
          (add_state_has_id m next_state accepted x)
  | bind_entry_action this f =>
    simp only [state_machine.apply, op.requests_state, Bool.false_eq_true, or_false]
    cases hd : m.deref this with
    | none => simp only [state_machine.bind_entry_action, hd]
    | some self =>
      simp only [state_machine.bind_entry_action, hd]
      exact store_has_id m this self _ x hd rfl
  | bind_exit_action this f =>
    simp only [state_machine.apply, op.requests_state, Bool.false_eq_true, or_false]
    cases hd : m.deref this with
    | none => simp only [state_machine.bind_exit_action, hd]
    | some self =>
      simp only [state_machine.bind_exit_action, hd]
      exact store_has_id m this self _ x hd rfl
  | bind_action this event_id f =>
    simp only [state_machine.apply, op.requests_state, Bool.false_eq_true, or_false]
    cases hd : m.deref this with
    | none => simp only [state_machine.bind_action, hd]
    | some self =>
      cases hf : self._find_event event_id with
      | none => simp only [state_machine.bind_action, hd, get_event_eq_find, hf]
      | some ev =>
        rw [bind_action_of_found m this self event_id ev f hd hf]
        exact store_has_id m this self _ x hd rfl
  | next_state event_id =>
    simp only [state_machine.apply, op.requests_state, Bool.false_eq_true, or_false]
    exact has_id_of_heap_eq m _ (next_state_frame m event_id).1 x
  | reset =>
    simp only [state_machine.apply, op.requests_state, Bool.false_eq_true, or_false]
    exact has_id_of_heap_eq m _ rfl x

theorem run_has_id (os : List (op S E)) (m : state_machine S E) (x : S) :
    (m.run os).has_id x ↔ m.has_id x ∨ state_requested x m os = true := by
  induction os generalizing m with
  | nil => simp [state_machine.run, state_requested]
  | cons o os ih =>
    simp only [state_machine.run, state_requested, Bool.or_eq_true]
    rw [ih (m.apply o), apply_has_id m o x, or_assoc]

theorem bind_event_action_events (self : state S E) (event_id : E)
    (action : Option callback) (e : E) (tgt : state_ptr) :
    (∃ ev ∈ (self.bind_event_action event_id action).get_events,
      ev.get_id = e ∧ ev.get_state = tgt) ↔
    ∃ ev ∈ self.get_events, ev.get_id = e ∧ ev.get_state = tgt := by
  constructor
  · rintro ⟨ev, hev, hid, htg⟩
    rcases mem_modify_first _ _ _ _ hev with h1 | ⟨y, hy, h1⟩
    · exact ⟨ev, h1, hid, htg⟩
    · rw [h1] at hid htg
      exact ⟨y, hy, hid, htg⟩
  · rintro ⟨ev, hev, hid, htg⟩
    obtain ⟨ev1, hev1, hid1, htg1⟩ :=
      (bind_event_action_extends self event_id action).2.2 ev hev
    exact ⟨ev1, hev1, hid1.trans hid, htg1.trans htg⟩

theorem created_eq_iff (this q : Nat) (t : event E) (e : E) (tgt : state_ptr) :
    (∃ ev, (some (this, t) : Option (Nat × event E)) = some (q, ev) ∧
      ev.get_id = e ∧ ev.get_state = tgt) ↔
    (q = this ∧ t.get_id = e ∧ t.get_state = tgt) := by
  constructor
  · rintro ⟨ev, h, hid, htg⟩
    cases h
    exact ⟨rfl, hid, htg⟩
  · rintro ⟨h, hid, htg⟩
    exact ⟨t, by rw [h], hid, htg⟩

theorem apply_has_event (m : state_machine S E) (o : op S E) (q : Nat) (e : E)
    (tgt : state_ptr) :
    (m.apply o).has_event q e tgt ↔
      m.has_event q e tgt ∨
        ∃ ev, o.created_event m = some (q, ev) ∧ ev.get_id = e ∧ ev.get_state = tgt := by
  have hnone : ∀ P : event E → Prop,
      (∃ ev, (none : Option (Nat × event E)) = some (q, ev) ∧ P ev) ↔ False :=
    fun P => ⟨fun ⟨_, h, _⟩ => (by cases h), fun h => h.elim⟩
  cases o with
  | add_state state_id accepted =>
    simp only [state_machine.apply, op.created_event, hnone, or_false]
    exact add_state_has_event m state_id accepted q e tgt
  | add_event this event_id =>
    simp only [state_machine.apply, op.created_event]
    cases hd : m.deref this with
    | none =>
      simp only [state_machine.add_event, hd, result.returned, Option.map_none', hnone,
        or_false]
    | some self =>
      cases hf : self._find_event event_id with
      | some ev =>
        rw [add_event_of_present m this self event_id ev hd hf]
        simp only [result.returned, Option.map_none', hnone, or_false]
      | none =>
        rw [add_event_of_absent m this self event_id hd hf]
        simp only [result.returned, Option.map_some', created_eq_iff]
        exact store_has_event_insert m this q self _ e tgt hd hf
  | add_event_next this event_id next_state accepted =>
    simp only [state_machine.apply, op.created_event]
    cases hd : m.deref this with
    | none =>
      simp only [state_machine.add_event_next, hd, result.returned, Option.map_none', hnone,
        or_false]
    | some self =>
      have hd1 : (m.add_state next_state accepted).machine.deref this = some self := by
        rw [add_state_deref_old m next_state accepted this (deref_lt m this self hd)]
        exact hd
      cases hf : self._find_event event_id with
      | some ev =>
        rw [add_event_next_of_present m this self event_id ev next_state accepted hd hf]
        simp only [result.returned, Option.map_none', hnone, or_false]
        exact add_state_has_event m next_state accepted q e tgt
      | none =>
        obtain ⟨s, hs, _⟩ := add_state_ret_ok m next_state accepted
        rw [add_event_next_of_absent m this s self event_id next_state accepted hd hf hs]
        simp only [result.returned, Option.map_some', created_eq_iff]
        rw [← add_state_has_event m next_state accepted q e tgt]
        exact store_has_event_insert _ this q self (event.mk event_id (some s) none) e tgt
          hd1 hf
  | bind_entry_action this f =>
    simp only [state_machine.apply, op.created_event, hnone, or_false]
    cases hd : m.deref this with
    | none => simp only [state_machine.bind_entry_action, hd]
    | some self =>
      simp only [state_machine.bind_entry_action, hd]
      exact store_has_event_same m this q self _ e tgt hd Iff.rfl
  | bind_exit_action this f =>
    simp only [state_machine.apply, op.created_event, hnone, or_false]
    cases hd : m.deref this with
    | none => simp only [state_machine.bind_exit_action, hd]
    | some self =>
      simp only [state_machine.bind_exit_action, hd]
      exact store_has_event_same m this q self _ e tgt hd Iff.rfl
  | bind_action this event_id f =>
    simp only [state_machine.apply, op.created_event, hnone, or_false]
    cases hd : m.deref this with
    | none => simp only [state_machine.bind_action, hd]
    | some self =>
      cases hf : self._find_event event_id with
      | none => simp only [state_machine.bind_action, hd, get_event_eq_find, hf]
      | some ev =>
        rw [bind_action_of_found m this self event_id ev f hd hf]
        exact store_has_event_same m this q self _ e tgt hd
          (bind_event_action_events self event_id f e tgt)
  | next_state event_id =>
    simp only [state_machine.apply, op.created_event, hnone, or_false]
    exact has_event_of_heap_eq m _ (next_state_frame m event_id).1 q e tgt
  | reset =>
    simp only [state_machine.apply, op.created_event, hnone, or_false]
    exact has_event_of_heap_eq m _ rfl q e tgt

theorem events_created_none (q : Nat) (m : state_machine S E) (o : op S E)
    (os : List (op S E)) (h : o.created_event m = none) :
    events_created q m (o :: os) = events_created q (m.apply o) os := by
  rw [events_created, h]

theorem events_created_self (q : Nat) (m : state_machine S E) (o : op S E)
    (os : List (op S E)) (ev : event E) (h : o.created_event m = some (q, ev)) :
    events_created q m (o :: os) = ev :: events_created q (m.apply o) os := by
  rw [events_created, h]
  simp

theorem events_created_other (q p : Nat) (m : state_machine S E) (o : op S E)
    (os : List (op S E)) (ev : event E) (h : o.created_event m = some (p, ev))
    (hp : p ≠ q) :
    events_created q m (o :: os) = events_created q (m.apply o) os := by
  rw [events_created, h]
  simp [hp]

theorem run_has_event (os : List (op S E)) (m : state_machine S E) (q : Nat) (e : E)
    (tgt : state_ptr) :
    (m.run os).has_event q e tgt ↔
      m.has_event q e tgt ∨
        ∃ ev ∈ events_created q m os, ev.get_id = e ∧ ev.get_state = tgt := by
  induction os generalizing m with
  | nil => simp [state_machine.run, events_created]
  | cons o os ih =>
    simp only [state_machine.run]
    rw [ih (m.apply o), apply_has_event m o q e tgt, or_assoc]
    apply or_congr_right
    cases hc : o.created_event m with
    | none =>
      rw [events_created_none q m o os hc]
      constructor
      · rintro (⟨_, h1, _⟩ | h)
        · cases h1
        · exact h
      · intro h
        exact Or.inr h
    | some pr =>
      obtain ⟨p1, ev1⟩ := pr
      by_cases hp : p1 = q
      · subst hp
        rw [events_created_self p1 m o os ev1 hc]
        constructor
        · rintro (⟨ev, h1, h2⟩ | ⟨ev, h1, h2⟩)
          · cases h1
            exact ⟨_, List.mem_cons_self _ _, h2⟩
          · exact ⟨ev, List.mem_cons_of_mem _ h1, h2⟩
        · rintro ⟨ev, h1, h2⟩
          rcases List.mem_cons.mp h1 with h3 | h3
          · exact Or.inl ⟨ev, by rw [h3], h2⟩
          · exact Or.inr ⟨ev, h3, h2⟩
      · rw [events_created_other q p1 m o os ev1 hc hp]
        constructor
        · rintro (⟨_, h1, _⟩ | h)
          · cases h1
            exact absurd rfl hp
          · exact h
        · intro h
          exact Or.inr h

theorem init_has_id (x : S) : ¬ (state_machine.init : state_machine S E).has_id x := by
  rintro ⟨p, s, hs, _⟩
  simp [state_machine.deref, state_machine.init] at hs

theorem init_has_event (q : Nat) (e : E) (tgt : state_ptr) :
    ¬ (state_machine.init : state_machine S E).has_event q e tgt := by
  rintro ⟨s, hs, _⟩
  simp [state_machine.deref, state_machine.init] at hs

/-- C14: let `m` be the machine that the calls `os` build from a newly constructed
machine; `os` may be empty. `get_state(x)` returns a state of the set with the id
`x` if one of the calls was `add_state(x, _)` or `add_event(_, x, _)` on a live
state, and `nullptr` otherwise. For every state `s` of `m` (at address `p`) and
every event id `e`, `get_event(e)` returns an event with the id `e` and with the
target the event was created with if one of the calls was an `add_event` of `e` on
`s` that returned, and `nullptr` otherwise. Both lookups return the machine
unchanged and invoke nothing. -/
theorem lookups_agree (os : List (op S E)) (m : state_machine S E)
    (hm : state_machine.init.run os = m) (x : S) :
    (m.get_state x).machine = m ∧ (m.get_state x).calls = [] ∧
    (state_requested x state_machine.init os = true →
      ∃ q sq, (m.get_state x).ret = .ok (some q) ∧ q ∈ m.get_states ∧
        m.deref q = some sq ∧ sq.get_id = x) ∧
    (state_requested x state_machine.init os = false → (m.get_state x).ret = .ok none) ∧
    (∀ (p : Nat) (e : E),
      (m.get_event p e).machine = m ∧ (m.get_event p e).calls = []) ∧
    (∀ (p : Nat) (s : state S E) (e : E), m.deref p = some s →
      (∀ ev0 ∈ events_created p state_machine.init os, ev0.get_id = e →
        ∃ ev, (m.get_event p e).ret = .ok (some ev) ∧ ev.get_id = e ∧
          ev.get_state = ev0.get_state) ∧
      ((∀ ev0 ∈ events_created p state_machine.init os, ev0.get_id ≠ e) →
        (m.get_event p e).ret = .ok none)) := by
  have hw : well_formed m := reachable_well_formed m ⟨os, hm⟩
  have hid := run_has_id os (state_machine.init : state_machine S E) x
  rw [hm] at hid
  refine ⟨?_, ?_, ?_, ?_, ?_, ?_⟩
  · unfold state_machine.get_state
    split <;> rfl
  · unfold state_machine.get_state
    split <;> rfl
  · intro hreq
    obtain ⟨p0, s0, hs0, hx0⟩ := hid.mpr (Or.inr hreq)
    cases hf : m._find_state x with
    | none =>
      exact absurd hx0
        (find_state_none m x hf p0 (hw.heap_owned p0 (deref_lt m p0 s0 hs0)) s0 hs0)
    | some q =>
      obtain ⟨hqm, sq, hsq, hxq⟩ := find_state_some m x q hf
      exact ⟨q, sq, by simp only [state_machine.get_state, hf], hqm, hsq, hxq⟩
  · intro hreq
    cases hf : m._find_state x with
    | none => simp only [state_machine.get_state, hf]
    | some q =>
      obtain ⟨_, sq, hsq, hxq⟩ := find_state_some m x q hf
      rcases hid.mp ⟨q, sq, hsq, hxq⟩ with h1 | h1
      · exact absurd h1 (init_has_id x)
      · rw [hreq] at h1
        cases h1
  · intro p e
    unfold state_machine.get_event
    constructor
    · split <;> rfl
    · split <;> rfl
  · intro p s e hd
    have hev := fun tgt => run_has_event os (state_machine.init : state_machine S E) p e tgt
    rw [hm] at hev
    have hget : m.get_event p e =
        { machine := m, calls := [], ret := .ok (s.get_event e) } := by
      simp only [state_machine.get_event, hd]
    constructor
    · intro ev0 hev0 hid0
      obtain ⟨s1, hs1, ev1, hev1, hid1, htg1⟩ :=
        (hev ev0.get_state).mpr (Or.inr ⟨ev0, hev0, hid0, rfl⟩)
      rw [hd] at hs1
      cases hs1
      rw [hget, get_event_eq_find]
      cases hf : s._find_event e with
      | none => exact absurd hid1 ((find_event_none_iff s e).mp hf ev1 hev1)
      | some ev =>
        obtain ⟨hmem, hide⟩ := find_event_some s e ev hf
        have heq : ev = ev1 :=
          List.inj_on_of_nodup_map (hw.events_distinct p s hd) hmem hev1
            (hide.trans hid1.symm)
        exact ⟨ev, rfl, hide, by rw [heq]; exact htg1⟩
    · intro hnone
      rw [hget, get_event_eq_find]
      cases hf : s._find_event e with
      | none => rfl
      | some ev =>
        obtain ⟨hmem, hide⟩ := find_event_some s e ev hf
        rcases (hev ev.get_state).mp ⟨s, hd, ev, hmem, hide, rfl⟩ with
          h1 | ⟨ev0, hev0, hid0, _⟩
        · exact absurd h1 (init_has_event p e _)
        · exact absurd hid0 (hnone ev0 hev0)

/-- Witness for C14. On `example_machine`: the id 2 was handed to `add_state` by the
`add_event` call that created event 7 on the state at address 0, the id 9 by no
call; event 7 was created there with the target at address 1 and bound to an action
later, event 9 was never created. On the newly constructed machine, built by no
call, `get_state` returns `nullptr`. -/
theorem lookups_agree_witness :
    state_machine.init.run example_ops = example_machine ∧
    example_machine.deref 0 =
      some ⟨1, false, [⟨8, some 0, some 98⟩, ⟨7, some 1, some 99⟩], none, some 11⟩ ∧
    (∃ q sq, (example_machine.get_state 2).ret = .ok (some q) ∧
      q ∈ example_machine.get_states ∧
      example_machine.deref q = some sq ∧ sq.get_id = 2) ∧
    (example_machine.get_state 9).ret = .ok none ∧
    (∃ ev, (example_machine.get_event 0 7).ret = .ok (some ev) ∧ ev.get_id = 7 ∧
      ev.get_state = event.get_state (⟨7, some 1, none⟩ : event Nat)) ∧
    (example_machine.get_event 0 9).ret = .ok none ∧
    ((state_machine.init : state_machine Nat Nat).get_state 2).ret = .ok none ∧
    ((state_machine.init : state_machine Nat Nat).get_state 2).machine =
      state_machine.init := by
  have h := lookups_agree example_ops example_machine rfl 2
  have h9 := lookups_agree example_ops example_machine rfl 9
  have hnew := lookups_agree ([] : List (op Nat Nat)) state_machine.init rfl 2
  have hs := h.2.2.2.2.2 0
    ⟨1, false, [⟨8, some 0, some 98⟩, ⟨7, some 1, some 99⟩], none, some 11⟩
  exact ⟨rfl, rfl, h.2.2.1 rfl, h9.2.2.2.1 rfl,
    (hs 7 rfl).1 ⟨7, some 1, none⟩ (by decide) rfl, (hs 9 rfl).2 (by decide),
    hnew.2.2.2.1 rfl, hnew.1⟩

end history

/-! ### The new machine and the totality of dispatch -/

section totality

variable {S E : Type} [LinearOrder S] [LinearOrder E]

/-- C21: a newly constructed machine has an empty set of states, its current and
initial pointers are `nullptr`, and `reset` returns `nullptr` and leaves it as it
is. On a machine built through the public interface that holds at least one state,
dispatch is total: for every event id it either throws the "no event" runtime
error or returns a pointer to a state of the machine's set whose object is live;
it never dereferences a missing current state or a missing target. -/
theorem dispatch_total (m : state_machine S E) (hr : reachable m)
    (hne : m.get_states ≠ []) (event_id : E) :
    (state_machine.init : state_machine S E).get_states = [] ∧
    (state_machine.init : state_machine S E).get_current_state = none ∧
    (state_machine.init : state_machine S E).get_initial_state = none ∧
    (state_machine.init : state_machine S E).reset.ret = .ok none ∧
    (state_machine.init : state_machine S E).reset.machine = state_machine.init ∧
    ((m.next_state event_id).ret = .error error.no_such_event ∨
      ∃ t nxt, (m.next_state event_id).ret = .ok (some t) ∧ t ∈ m.get_states ∧
        m.deref t = some nxt) ∧
    (m.next_state event_id).ret ≠ .error error.null_dereference := by
  have hw := reachable_well_formed m hr
  obtain ⟨c, cur, hc, _, hd⟩ := current_of_nonempty m hw hne
  refine ⟨rfl, rfl, rfl, rfl, rfl, ?_⟩
  cases h : cur._find_event event_id with
  | none =>
    rw [next_state_of_absent m c cur event_id hc hd h]
    exact ⟨Or.inl rfl, fun hx => by cases hx⟩
  | some ev =>
    obtain ⟨t, nxt, ht, htm, hn⟩ := target_of_event m hw c cur event_id ev hd h
    by_cases hne2 : t = c
    · rw [next_state_of_self m c cur event_id ev hc hd h (hne2 ▸ ht)]
      exact ⟨Or.inr ⟨c, nxt, rfl, hne2 ▸ htm, hne2 ▸ hn⟩, fun hx => by cases hx⟩
    · rw [next_state_of_other m c t cur nxt event_id ev hc hd h ht hne2 hn]
      exact ⟨Or.inr ⟨t, nxt, rfl, htm, hn⟩, fun hx => by cases hx⟩

/-- Witness for C21 on `example_machine`: the dispatch of event 7 returns the state
at address 1, a state of the set. -/
theorem dispatch_total_witness :
    reachable example_machine ∧ example_machine.get_states ≠ [] ∧
    ((example_machine.next_state 7).ret = .error error.no_such_event ∨
      ∃ t nxt, (example_machine.next_state 7).ret = .ok (some t) ∧
        t ∈ example_machine.get_states ∧ example_machine.deref t = some nxt) ∧
    (example_machine.next_state 7).ret ≠ .error error.null_dereference :=
  ⟨⟨example_ops, rfl⟩, by decide,
    (dispatch_total example_machine ⟨example_ops, rfl⟩ (by decide) 7).2.2.2.2.2⟩

end totality

end StateMachine
